import Mathlib

/-!
Verification of the Polymarket trading tool's resumable-approval core
(src/extensions/polymarket/src/polymarket-tool.ts).

The embedding models JavaScript numbers as exact rationals (every JS double is
a rational; the 1e-9 tolerance in the tick check is designed to absorb rounding
error, and all claims are about values where the exact and floating readings
agree).  JS strings are modelled as Lean strings, bytes as natural numbers
below 256.  The JSON serializer and parser, UTF-8 codec, base64url codec and
HMAC-SHA-256 are implemented concretely, mirroring the platform primitives the
source calls (JSON.stringify / JSON.parse, Buffer base64url with its
slack-bit dropping behaviour, node:crypto createHash / createHmac).
-/

namespace Moltbot

/-- Byte strings: lists of naturals (each below 256 by construction). -/
abbrev Bytes := List Nat

/-! ## Decimal digits -/

/-- The character for a decimal digit. -/
def digitChar (n : Nat) : Char := Char.ofNat (48 + n)

/-- Decimal digit test, as in a hand parser: characters between 0 and 9. -/
def isDigitC (c : Char) : Bool := 48 ≤ c.toNat && c.toNat ≤ 57

/-- Lowercase hexadecimal digit character (for JSON \u escapes). -/
def hexChar (n : Nat) : Char := if n < 10 then Char.ofNat (48 + n) else Char.ofNat (87 + n)

/-- The decimal digit list of a natural number, most significant first
(fuel-bounded structural recursion; the wrapper supplies ample fuel). -/
def natToCharsAux : Nat → Nat → List Char
  | 0, _ => []
  | fuel + 1, n =>
    if n < 10 then [digitChar n]
    else natToCharsAux fuel (n / 10) ++ [digitChar (n % 10)]

/-- The decimal digit list of a natural number, most significant first. -/
def natToChars (n : Nat) : List Char := natToCharsAux (n + 1) n

/-- Value of a decimal digit list under a left accumulator. -/
def digitsVal (acc : Nat) : List Char → Nat
  | [] => acc
  | c :: rest => digitsVal (acc * 10 + (c.toNat - 48)) rest

/-- Greedy digit scan: consumes leading decimal digits, returning the
accumulated value, the count of digits consumed, and the rest. -/
def scanDigits (acc : Nat) (cnt : Nat) : List Char → (Nat × Nat × List Char)
  | [] => (acc, cnt, [])
  | c :: rest =>
    if isDigitC c then scanDigits (acc * 10 + (c.toNat - 48)) (cnt + 1) rest
    else (acc, cnt, c :: rest)

/-! ## JSON number rendering (model of JSON.stringify on a number)

JSON.stringify prints a double as its shortest decimal form; in the exact
rational model this is the plain decimal expansion with no trailing zeros.
The fractional expansion carries fuel; 1100 digits suffice for every IEEE
double, and the round-trip lemmas assume the value terminates within it. -/

/-- Fractional digits of a rational in [0, 1), fuel-bounded, stopping at 0
(so no trailing zeros are printed). -/
def fracChars (q : ℚ) : Nat → List Char
  | 0 => []
  | fuel + 1 =>
    if q = 0 then []
    else
      let d := (q * 10).floor.toNat
      digitChar d :: fracChars (q * 10 - (q * 10).floor) fuel

/-- Decimal rendering fuel: enough fractional digits for any IEEE double. -/
def numFuel : Nat := 1100

/-- Render a nonnegative rational in plain decimal. -/
def renderNumNN (q : ℚ) : List Char :=
  natToChars q.floor.toNat ++
    (if q - q.floor = 0 then [] else '.' :: fracChars (q - q.floor) numFuel)

/-- Render a rational the way JSON.stringify renders the corresponding
double: optional leading minus, then plain decimal with no trailing zeros. -/
def renderNum (q : ℚ) : List Char :=
  if q < 0 then '-' :: renderNumNN (-q) else renderNumNN q

/-- A rational has a terminating decimal expansion within the rendering
fuel: scaling by 10 ^ numFuel clears the denominator. -/
def DecTerminates (q : ℚ) : Prop := (q * (10 : ℚ) ^ numFuel).den = 1

instance (q : ℚ) : Decidable (DecTerminates q) := by
  unfold DecTerminates; infer_instance

/-! ## JSON number parsing (model of the number production of JSON.parse) -/

/-- Value of a fractional digit string: digits after the decimal point. -/
def fracVal : List Char → ℚ
  | [] => 0
  | c :: rest => ((c.toNat - 48 : ℕ) + fracVal rest) / 10

/-- The optional fraction of a number token: a dot followed by at least
one digit; a dot with no digit is not consumed. -/
def parseFracPart (iv : ℚ) (l : List Char) : ℚ × List Char :=
  match l with
  | '.' :: r =>
    let (fv, fcnt, r2) := scanDigits 0 0 r
    if fcnt = 0 then (iv, '.' :: r)
    else (iv + (fv : ℚ) / 10 ^ fcnt, r2)
  | _ => (iv, l)

/-- An exponent's signed digits; on a malformed exponent the number ends
before the e (mirroring the grammar's longest-match backtrack). -/
def parseExpTail (q2 : ℚ) (r orig : List Char) : Option (ℚ × List Char) :=
  match r with
  | '-' :: r2 =>
    let (ev, ecnt, r3) := scanDigits 0 0 r2
    if ecnt = 0 then some (q2, orig) else some (q2 / 10 ^ ev, r3)
  | '+' :: r2 =>
    let (ev, ecnt, r3) := scanDigits 0 0 r2
    if ecnt = 0 then some (q2, orig) else some (q2 * 10 ^ ev, r3)
  | _ =>
    let (ev, ecnt, r3) := scanDigits 0 0 r
    if ecnt = 0 then some (q2, orig) else some (q2 * 10 ^ ev, r3)

/-- The optional exponent of a number token. -/
def parseExpPart (q2 : ℚ) (l : List Char) : Option (ℚ × List Char) :=
  match l with
  | 'e' :: r => parseExpTail q2 r ('e' :: r)
  | 'E' :: r => parseExpTail q2 r ('E' :: r)
  | _ => some (q2, l)

/-- Parse the unsigned part of a JSON number: integer digits, an optional
fraction, and an optional exponent.  Returns none when no digit leads. -/
def parseNumBody (l : List Char) : Option (ℚ × List Char) :=
  let (iv, icnt, rest1) := scanDigits 0 0 l
  if icnt = 0 then none
  else
    let (q2, rest2) := parseFracPart (iv : ℚ) rest1
    parseExpPart q2 rest2

/-- Parse a JSON number, sign included. -/
def parseNum : List Char → Option (ℚ × List Char)
  | '-' :: rest => (parseNumBody rest).map (fun p => (-p.1, p.2))
  | l => parseNumBody l

/-! ## JSON values -/

/-- JSON values, with numbers as exact rationals.  This is the shape of the
dynamic data JSON.parse returns and JSON.stringify consumes; the decoded
resume-token payload is such a value (the source merely casts it). -/
inductive Json where
  | null : Json
  | bool (b : Bool) : Json
  | num (q : ℚ) : Json
  | str (s : String) : Json
  | arr (xs : List Json) : Json
  | obj (members : List (String × Json)) : Json

/-- The opening brace character. -/
def lbrace : Char := Char.ofNat 123

/-- The closing brace character. -/
def rbrace : Char := Char.ofNat 125

/-- JSON.stringify's escaping of one character inside a string literal:
quote, backslash and the named control characters get two-character escapes,
remaining control characters a lowercase \u00xx escape, everything else
passes through (non-ASCII is not escaped). -/
def escapeChar (c : Char) : List Char :=
  if c = '"' then ['\\', '"']
  else if c = '\\' then ['\\', '\\']
  else if c = Char.ofNat 8 then ['\\', 'b']
  else if c = Char.ofNat 9 then ['\\', 't']
  else if c = Char.ofNat 10 then ['\\', 'n']
  else if c = Char.ofNat 12 then ['\\', 'f']
  else if c = Char.ofNat 13 then ['\\', 'r']
  else if c.toNat < 32 then
    ['\\', 'u', '0', '0', hexChar (c.toNat / 16), hexChar (c.toNat % 16)]
  else [c]

/-- A JSON string literal: quote, escaped body, quote. -/
def renderStr (s : String) : List Char :=
  '"' :: (s.data.flatMap escapeChar) ++ ['"']

mutual

/-- Render a JSON value exactly as JSON.stringify with no spacing argument:
no whitespace, members in list order, object keys escaped like strings. -/
def renderJson : Json → List Char
  | .null => "null".data
  | .bool true => "true".data
  | .bool false => "false".data
  | .num q => renderNum q
  | .str s => renderStr s
  | .arr [] => ['[', ']']
  | .arr (x :: xs) => '[' :: renderJson x ++ renderElemsTail xs ++ [']']
  | .obj [] => [lbrace, rbrace]
  | .obj (m :: ms) =>
    lbrace :: renderStr m.1 ++ ':' :: renderJson m.2 ++ renderMembersTail ms ++ [rbrace]

/-- Remaining array elements, each preceded by a comma. -/
def renderElemsTail : List Json → List Char
  | [] => []
  | x :: xs => ',' :: renderJson x ++ renderElemsTail xs

/-- Remaining object members, each preceded by a comma. -/
def renderMembersTail : List (String × Json) → List Char
  | [] => []
  | m :: ms => ',' :: renderStr m.1 ++ ':' :: renderJson m.2 ++ renderMembersTail ms

end

/-- JSON whitespace skipping (space, tab, newline, carriage return). -/
def skipWs : List Char → List Char
  | c :: rest =>
    if c = ' ' ∨ c = Char.ofNat 9 ∨ c = Char.ofNat 10 ∨ c = Char.ofNat 13 then skipWs rest
    else c :: rest
  | [] => []

/-- Numeric value of a hexadecimal digit character. -/
def hexVal (c : Char) : Option Nat :=
  if 48 ≤ c.toNat ∧ c.toNat ≤ 57 then some (c.toNat - 48)
  else if 97 ≤ c.toNat ∧ c.toNat ≤ 102 then some (c.toNat - 87)
  else if 65 ≤ c.toNat ∧ c.toNat ≤ 70 then some (c.toNat - 55)
  else none

/-- Parse the body of a JSON string literal after the opening quote, undoing
the escapes; stops at the closing quote. -/
def parseStrBody : List Char → Option (List Char × List Char)
  | [] => none
  | '"' :: rest => some ([], rest)
  | '\\' :: e :: rest =>
    match e with
    | '"' => (parseStrBody rest).map (fun p => ('"' :: p.1, p.2))
    | '\\' => (parseStrBody rest).map (fun p => ('\\' :: p.1, p.2))
    | '/' => (parseStrBody rest).map (fun p => ('/' :: p.1, p.2))
    | 'b' => (parseStrBody rest).map (fun p => (Char.ofNat 8 :: p.1, p.2))
    | 't' => (parseStrBody rest).map (fun p => (Char.ofNat 9 :: p.1, p.2))
    | 'n' => (parseStrBody rest).map (fun p => (Char.ofNat 10 :: p.1, p.2))
    | 'f' => (parseStrBody rest).map (fun p => (Char.ofNat 12 :: p.1, p.2))
    | 'r' => (parseStrBody rest).map (fun p => (Char.ofNat 13 :: p.1, p.2))
    | 'u' =>
      match rest with
      | h1 :: h2 :: h3 :: h4 :: rest2 =>
        match hexVal h1, hexVal h2, hexVal h3, hexVal h4 with
        | some v1, some v2, some v3, some v4 =>
          (parseStrBody rest2).map
            (fun p => (Char.ofNat (v1 * 4096 + v2 * 256 + v3 * 16 + v4) :: p.1, p.2))
        | _, _, _, _ => none
      | _ => none
    | _ => none
  | c :: rest => (parseStrBody rest).map (fun p => (c :: p.1, p.2))

mutual

/-- Fuel-bounded recursive-descent parser for a JSON value, mirroring
JSON.parse's grammar (whitespace allowed around tokens). -/
def parseVal : Nat → List Char → Option (Json × List Char)
  | 0, _ => none
  | fuel + 1, l =>
    match skipWs l with
    | '"' :: rest => (parseStrBody rest).map (fun p => (.str (String.mk p.1), p.2))
    | 't' :: 'r' :: 'u' :: 'e' :: rest => some (.bool true, rest)
    | 'f' :: 'a' :: 'l' :: 's' :: 'e' :: rest => some (.bool false, rest)
    | 'n' :: 'u' :: 'l' :: 'l' :: rest => some (.null, rest)
    | '[' :: rest =>
      (match skipWs rest with
       | ']' :: rest2 => some (.arr [], rest2)
       | l2 => (parseElems fuel l2).map (fun p => (.arr p.1, p.2)))
    | c :: rest =>
      if c = lbrace then
        (match skipWs rest with
         | c2 :: rest2 =>
           if c2 = rbrace then some (.obj [], rest2)
           else (parseMembers fuel (c2 :: rest2)).map (fun p => (.obj p.1, p.2))
         | [] => none)
      else (parseNum (c :: rest)).map (fun p => (.num p.1, p.2))
    | [] => none

/-- Parse one or more array elements separated by commas, up to the
closing bracket. -/
def parseElems : Nat → List Char → Option (List Json × List Char)
  | 0, _ => none
  | fuel + 1, l =>
    match parseVal fuel l with
    | none => none
    | some (v, rest) =>
      match skipWs rest with
      | ',' :: rest2 => (parseElems fuel rest2).map (fun p => (v :: p.1, p.2))
      | ']' :: rest2 => some ([v], rest2)
      | _ => none

/-- Parse one or more object members separated by commas, up to the
closing brace. -/
def parseMembers : Nat → List Char → Option (List (String × Json) × List Char)
  | 0, _ => none
  | fuel + 1, l =>
    match skipWs l with
    | '"' :: rest =>
      match parseStrBody rest with
      | none => none
      | some (k, rest2) =>
        match skipWs rest2 with
        | ':' :: rest3 =>
          match parseVal fuel rest3 with
          | none => none
          | some (v, rest4) =>
            match skipWs rest4 with
            | ',' :: rest5 => (parseMembers fuel rest5).map (fun p => ((String.mk k, v) :: p.1, p.2))
            | c :: rest5 =>
              if c = rbrace then some ([(String.mk k, v)], rest5) else none
            | [] => none
        | _ => none
    | _ => none

end

/-- JSON.parse: parse a complete value, allowing trailing whitespace only. -/
def parseJson (s : String) : Option Json :=
  match parseVal (s.data.length + 1) s.data with
  | some (v, rest) => if skipWs rest = [] then some v else none
  | none => none

/-! ## UTF-8 (model of Buffer.from(string, "utf8") and toString("utf8")) -/

/-- UTF-8 encoding of one character (1 to 4 bytes by code point range). -/
def utf8Char (c : Char) : Bytes :=
  let n := c.toNat
  if n < 128 then [n]
  else if n < 2048 then [192 + n / 64, 128 + n % 64]
  else if n < 65536 then [224 + n / 4096, 128 + (n / 64) % 64, 128 + n % 64]
  else [240 + n / 262144, 128 + (n / 4096) % 64, 128 + (n / 64) % 64, 128 + n % 64]

/-- UTF-8 encoding of a character list. -/
def utf8Encode (l : List Char) : Bytes := l.flatMap utf8Char

/-- UTF-8 decoding steps (fuel-bounded structural recursion; each step
consumes at least one byte, so the byte count is ample fuel).  Ill-formed
sequences produce the replacement character and resynchronize, the way
Buffer.toString("utf8") does. -/
def utf8DecodeAux : Nat → Bytes → List Char
  | _, [] => []
  | 0, _ :: _ => []
  | fuel + 1, b :: rest =>
    if b < 128 then Char.ofNat b :: utf8DecodeAux fuel rest
    else if 192 ≤ b ∧ b < 224 then
      match rest with
      | b2 :: r =>
        if 128 ≤ b2 ∧ b2 < 192 then
          Char.ofNat ((b - 192) * 64 + (b2 - 128)) :: utf8DecodeAux fuel r
        else Char.ofNat 65533 :: utf8DecodeAux fuel rest
      | [] => [Char.ofNat 65533]
    else if 224 ≤ b ∧ b < 240 then
      match rest with
      | b2 :: b3 :: r =>
        if (128 ≤ b2 ∧ b2 < 192) ∧ (128 ≤ b3 ∧ b3 < 192) then
          Char.ofNat ((b - 224) * 4096 + (b2 - 128) * 64 + (b3 - 128)) :: utf8DecodeAux fuel r
        else Char.ofNat 65533 :: utf8DecodeAux fuel rest
      | _ => [Char.ofNat 65533]
    else if 240 ≤ b ∧ b < 248 then
      match rest with
      | b2 :: b3 :: b4 :: r =>
        if (128 ≤ b2 ∧ b2 < 192) ∧ (128 ≤ b3 ∧ b3 < 192) ∧ (128 ≤ b4 ∧ b4 < 192) then
          Char.ofNat ((b - 240) * 262144 + (b2 - 128) * 4096 + (b3 - 128) * 64 + (b4 - 128)) ::
            utf8DecodeAux fuel r
        else Char.ofNat 65533 :: utf8DecodeAux fuel rest
      | _ => [Char.ofNat 65533]
    else Char.ofNat 65533 :: utf8DecodeAux fuel rest

/-- UTF-8 decoding of a byte string. -/
def utf8Decode (l : Bytes) : List Char := utf8DecodeAux l.length l

/-! ## base64url (model of Buffer base64url encode / decode)

Encoding uses the URL-safe alphabet with no padding.  Decoding mirrors
Buffer.from(_, "base64url"): characters outside the alphabet are ignored,
and trailing bits that do not fill a byte are dropped — so two encoded
strings differing only in such slack bits decode to the same bytes. -/

/-- The base64url alphabet character for a 6-bit value. -/
def sextetChar (n : Nat) : Char :=
  if n < 26 then Char.ofNat (65 + n)
  else if n < 52 then Char.ofNat (97 + (n - 26))
  else if n < 62 then Char.ofNat (48 + (n - 52))
  else if n = 62 then '-'
  else '_'

/-- The 6-bit value of a base64url alphabet character, none otherwise. -/
def charSextet (c : Char) : Option Nat :=
  let n := c.toNat
  if 65 ≤ n ∧ n ≤ 90 then some (n - 65)
  else if 97 ≤ n ∧ n ≤ 122 then some (n - 97 + 26)
  else if 48 ≤ n ∧ n ≤ 57 then some (n - 48 + 52)
  else if c = '-' then some 62
  else if c = '_' then some 63
  else none

/-- base64url encoding: three bytes become four characters; a final group of
one or two bytes becomes two or three characters, unpadded. -/
def encodeB64 : Bytes → List Char
  | b1 :: b2 :: b3 :: rest =>
    sextetChar (b1 / 4) :: sextetChar ((b1 % 4) * 16 + b2 / 16) ::
      sextetChar ((b2 % 16) * 4 + b3 / 64) :: sextetChar (b3 % 64) :: encodeB64 rest
  | [b1, b2] => [sextetChar (b1 / 4), sextetChar ((b1 % 4) * 16 + b2 / 16), sextetChar ((b2 % 16) * 4)]
  | [b1] => [sextetChar (b1 / 4), sextetChar ((b1 % 4) * 16)]
  | [] => []

/-- Reassemble bytes from 6-bit values, dropping trailing slack bits
(a lone trailing value contributes nothing; three values two bytes). -/
def sextetsToBytes : List Nat → Bytes
  | s1 :: s2 :: s3 :: s4 :: rest =>
    (s1 * 4 + s2 / 16) :: ((s2 % 16) * 16 + s3 / 4) :: ((s3 % 4) * 64 + s4) :: sextetsToBytes rest
  | [s1, s2, s3] => [s1 * 4 + s2 / 16, (s2 % 16) * 16 + s3 / 4]
  | [s1, s2] => [s1 * 4 + s2 / 16]
  | [_] => []
  | [] => []

/-- base64url decoding, Buffer-style: ignore foreign characters, then
reassemble, dropping slack bits. -/
def decodeB64 (l : List Char) : Bytes := sextetsToBytes (l.filterMap charSextet)

/-! ## SHA-256 and HMAC-SHA-256 (model of node:crypto createHash / createHmac)

Word arithmetic is on naturals reduced modulo 2 ^ 32. -/

/-- 2 ^ 32, the word modulus. -/
def w32 : Nat := 4294967296

/-- Right-rotation of a 32-bit word. -/
def rotr (n x : Nat) : Nat := ((x >>> n) ||| (x <<< (32 - n))) % w32

/-- SHA-256 round constants. -/
def sha256K : List Nat :=
  [1116352408, 1899447441, 3049323471, 3921009573, 961987163, 1508970993, 2453635748, 2870763221,
   3624381080, 310598401, 607225278, 1426881987, 1925078388, 2162078206, 2614888103, 3248222580,
   3835390401, 4022224774, 264347078, 604807628, 770255983, 1249150122, 1555081692, 1996064986,
   2554220882, 2821834349, 2952996808, 3210313671, 3336571891, 3584528711, 113926993, 338241895,
   666307205, 773529912, 1294757372, 1396182291, 1695183700, 1986661051, 2177026350, 2456956037,
   2730485921, 2820302411, 3259730800, 3345764771, 3516065817, 3600352804, 4094571909, 275423344,
   430227734, 506948616, 659060556, 883997877, 958139571, 1322822218, 1537002063, 1747873779,
   1955562222, 2024104815, 2227730452, 2361852424, 2428436474, 2756734187, 3204031479, 3329325298]

/-- SHA-256 initial hash state. -/
def sha256H0 : List Nat :=
  [1779033703, 3144134277, 1013904242, 2773480762, 1359893119, 2600822924, 528734635, 1541459225]

/-- Big-endian 8-byte rendering of the bit length. -/
def be64 (n : Nat) : Bytes :=
  [(n >>> 56) % 256, (n >>> 48) % 256, (n >>> 40) % 256, (n >>> 32) % 256,
   (n >>> 24) % 256, (n >>> 16) % 256, (n >>> 8) % 256, n % 256]

/-- SHA-256 padding: 0x80, zeros to 56 mod 64, then the big-endian bit length. -/
def padMsg (m : Bytes) : Bytes :=
  let z := (64 - (m.length + 9) % 64) % 64
  m ++ 128 :: List.replicate z 0 ++ be64 (8 * m.length)

/-- Pack bytes into big-endian 32-bit words. -/
def bytesToWords : Bytes → List Nat
  | b1 :: b2 :: b3 :: b4 :: rest => (b1 * 16777216 + b2 * 65536 + b3 * 256 + b4) :: bytesToWords rest
  | _ => []

/-- Unpack 32-bit words into big-endian bytes. -/
def wordsToBytes : List Nat → Bytes
  | [] => []
  | w :: rest => (w >>> 24) % 256 :: (w >>> 16) % 256 :: (w >>> 8) % 256 :: w % 256 :: wordsToBytes rest

/-- Split a byte string into 64-byte blocks (fuel-bounded structural
recursion; the wrapper supplies ample fuel). -/
def chunk64Aux : Nat → Bytes → List Bytes
  | _, [] => []
  | 0, l => [l]
  | fuel + 1, b :: l => ((b :: l).take 64) :: chunk64Aux fuel ((b :: l).drop 64)

/-- Split a byte string into 64-byte blocks. -/
def chunk64 (l : Bytes) : List Bytes := chunk64Aux l.length l

/-- Extend the 16 message words to the 64-entry schedule. -/
def msgSchedule (w : List Nat) : Nat → List Nat
  | 0 => w
  | n + 1 =>
    let i := w.length
    let s0 := let x := w.getD (i - 15) 0; (rotr 7 x) ^^^ (rotr 18 x) ^^^ (x >>> 3)
    let s1 := let x := w.getD (i - 2) 0; (rotr 17 x) ^^^ (rotr 19 x) ^^^ (x >>> 10)
    msgSchedule (w ++ [(w.getD (i - 16) 0 + s0 + w.getD (i - 7) 0 + s1) % w32]) n

/-- One round of the SHA-256 compression function. -/
def sha256Round (st : List Nat) (kw : Nat × Nat) : List Nat :=
  match st with
  | [a, b, c, d, e, f, g, h] =>
    let bigS1 := (rotr 6 e) ^^^ (rotr 11 e) ^^^ (rotr 25 e)
    let ch := (e &&& f) ^^^ ((e ^^^ 4294967295) &&& g)
    let t1 := (h + bigS1 + ch + kw.1 + kw.2) % w32
    let bigS0 := (rotr 2 a) ^^^ (rotr 13 a) ^^^ (rotr 22 a)
    let maj := (a &&& b) ^^^ (a &&& c) ^^^ (b &&& c)
    let t2 := (bigS0 + maj) % w32
    [(t1 + t2) % w32, a, b, c, (d + t1) % w32, e, f, g]
  | other => other

/-- Compress one 64-byte block into the running hash state. -/
def compressBlock (h : List Nat) (block : Bytes) : List Nat :=
  let ws := msgSchedule (bytesToWords block) 48
  let st := (sha256K.zip ws).foldl sha256Round h
  (h.zip st).map (fun p => (p.1 + p.2) % w32)

/-- SHA-256 of a byte string. -/
def sha256 (m : Bytes) : Bytes :=
  wordsToBytes ((chunk64 (padMsg m)).foldl compressBlock sha256H0)

/-- HMAC-SHA-256, with the standard 64-byte block: long keys are hashed,
short keys zero-padded, then the nested inner/outer hashing. -/
def hmacSha256 (key msg : Bytes) : Bytes :=
  let k0 := if key.length > 64 then sha256 key else key
  let k := k0 ++ List.replicate (64 - k0.length) 0
  sha256 ((k.map (fun b => b ^^^ 92)) ++ sha256 ((k.map (fun b => b ^^^ 54)) ++ msg))

/-! ## The pending-order descriptor and the approval token codec -/

/-- The pending-order descriptor staged by place_order and embedded in the
resume token (the source's PendingOrder type; optional fields are dropped
from the JSON when absent, as JSON.stringify drops undefined properties). -/
structure PendingOrder where
  action : String
  createdAtMs : ℚ
  expiresAtMs : ℚ
  sessionKey : Option String
  marketId : Option String
  marketSlug : Option String
  marketQuestion : Option String
  tokenId : String
  side : String
  outcome : Option String
  price : ℚ
  size : ℚ
  approxNotionalUsd : ℚ
deriving DecidableEq

/-- An optional object member: present when the value is, dropped otherwise. -/
def optMember (k : String) : Option Json → List (String × Json)
  | some v => [(k, v)]
  | none => []

/-- The JSON object a descriptor becomes under JSON.stringify: the literal's
key order, undefined-valued optional properties dropped. -/
def toJson (o : PendingOrder) : Json :=
  .obj ([("action", .str o.action), ("createdAtMs", .num o.createdAtMs),
         ("expiresAtMs", .num o.expiresAtMs)] ++
        optMember "sessionKey" (o.sessionKey.map .str) ++
        [("market", .obj (optMember "id" (o.marketId.map .str) ++
                          optMember "slug" (o.marketSlug.map .str) ++
                          optMember "question" (o.marketQuestion.map .str)))] ++
        [("tokenId", .str o.tokenId), ("side", .str o.side)] ++
        optMember "outcome" (o.outcome.map .str) ++
        [("price", .num o.price), ("size", .num o.size),
         ("approxNotionalUsd", .num o.approxNotionalUsd)])

/-- Derive the HMAC key from the trading private key by hashing it
(createHash("sha256").update(privateKey, "utf8").digest()). -/
def createTokenKey (privateKey : String) : Bytes := sha256 (utf8Encode privateKey.data)

/-- Sign the payload JSON: HMAC-SHA-256, rendered base64url. -/
def signToken (payloadJson : String) (key : Bytes) : String :=
  String.mk (encodeB64 (hmacSha256 key (utf8Encode payloadJson.data)))

/-- Encode a resume token: base64url of the JSON payload, a dot, and the
base64url signature. -/
def encodeResumeToken (payload : PendingOrder) (privateKey : String) : String :=
  let payloadJson := String.mk (renderJson (toJson payload))
  let key := createTokenKey privateKey
  let sig := signToken payloadJson key
  let body := String.mk (encodeB64 (utf8Encode payloadJson.data))
  String.mk (body.data ++ '.' :: sig.data)

/-- JS String.split(".") on a character list. -/
def splitDot : List Char → List (List Char)
  | [] => [[]]
  | c :: rest =>
    if c = '.' then [] :: splitDot rest
    else
      match splitDot rest with
      | s :: ss => (c :: s) :: ss
      | [] => [[c]]

/-- Decode failures, in the order the source detects them: wrong part count,
signature mismatch, JSON.parse failure, non-record payload. -/
inductive DecodeError where
  | malformedToken
  | invalidSignature
  | invalidPayloadParse
  | invalidPayloadShape
deriving DecidableEq

/-- The isRecord check: a non-null non-array object. -/
def isRecordJ : Json → Bool
  | .obj _ => true
  | _ => false

/-- Verification of a two-part token: recompute the signature over the
decoded payload bytes and compare byte-wise (the constant-time comparison
decides only equality), then JSON.parse and the record check. -/
def decodeParts (body sig : List Char) (privateKey : String) : Except DecodeError Json :=
  if (utf8Encode sig).length =
      (utf8Encode (signToken (String.mk (utf8Decode (decodeB64 body)))
        (createTokenKey privateKey)).data).length ∧
    utf8Encode sig =
      utf8Encode (signToken (String.mk (utf8Decode (decodeB64 body)))
        (createTokenKey privateKey)).data then
    match parseJson (String.mk (utf8Decode (decodeB64 body))) with
    | some parsed => if isRecordJ parsed then .ok parsed else .error .invalidPayloadShape
    | none => .error .invalidPayloadParse
  else .error .invalidSignature

/-- Decode and verify a resume token: split on the dot, then verify the
two parts. -/
def decodeResumeToken (token privateKey : String) : Except DecodeError Json :=
  match splitDot token.data with
  | [body, sig] => decodeParts body sig privateKey
  | _ => .error .malformedToken

/-- The characters of a token's payload segment. -/
def tokenBodyChars (o : PendingOrder) : List Char :=
  encodeB64 (utf8Encode (renderJson (toJson o)))

/-- The characters of a token's signature segment. -/
def tokenSigChars (o : PendingOrder) (sk : String) : List Char :=
  (signToken (String.mk (renderJson (toJson o))) (createTokenKey sk)).data

/-! ## Market data, configuration, safety gate, outcome resolver -/

/-- The slice of a Gamma market record the modelled paths read
(null and undefined are both modelled as none). -/
structure GammaMarket where
  id : Option String
  slug : Option String
  question : Option String
  outcomes : Option String
  clobTokenIds : Option String

/-- Resolved plugin configuration (the fields the modelled paths read). -/
structure PluginConfig where
  tradeEnabled : Bool
  maxNotionalUsd : ℚ
  allowedMarketSlugs : Option (List String)

/-- Tool execution context. -/
structure ToolContext where
  sandboxed : Bool
  sessionKey : Option String

/-- JS whitespace for trimming and numeric parsing (the ASCII core). -/
def isJsWs (c : Char) : Bool :=
  c = ' ' ∨ c.toNat = 9 ∨ c.toNat = 10 ∨ c.toNat = 11 ∨ c.toNat = 12 ∨ c.toNat = 13

/-- String.trim, stated over the character list so it computes: drop
whitespace from both ends. -/
def jsTrim (s : String) : String :=
  String.mk (((s.data.dropWhile isJsWs).reverse.dropWhile isJsWs).reverse)

/-- Lowercase a string character-wise (the ASCII core of toLowerCase,
stated over the character list so it computes). -/
def jsToLowerCase (s : String) : String := String.mk (s.data.map Char.toLower)

/-- Lowercased, trimmed outcome label. -/
def normalizeOutcomeLabel (value : String) : String := jsToLowerCase (jsTrim value)

/-- Parse a JSON-encoded string array field: non-strings become empty and
are filtered out along with empty strings; empty results and parse
failures give none. -/
def parseJsonStringArray (value : Option String) : Option (List String) :=
  match value with
  | none => none
  | some s =>
    let trimmed := jsTrim s
    if trimmed = "" then none
    else
      match parseJson trimmed with
      | some (.arr xs) =>
        let out := xs.filterMap (fun e =>
          match e with
          | .str t => if t = "" then none else some t
          | _ => none)
        if out = [] then none else some out
      | _ => none

/-- Truthiness of an optional JS string: present and non-empty. -/
def jsOptTruthy : Option String → Bool
  | some s => s ≠ ""
  | none => false

/-- Outcome-resolution failures (the source throws these messages). -/
inductive ResolveError where
  | missingClobTokenIds
  | unknownOutcome (outcome : String)
  | provideTokenId
deriving DecidableEq

/-- Map an outcome label to a tradable token id: exact normalized label
match when the lists line up, else the yes/no binary heuristic, else the
first token when no label was given, else demand an explicit token id. -/
def resolveOutcomeToken (market : GammaMarket) (outcome : Option String) :
    Except ResolveError (String × Option String) :=
  let tokens := (parseJsonStringArray market.clobTokenIds).getD []
  if tokens.length = 0 then .error .missingClobTokenIds
  else
    let outcomes := (parseJsonStringArray market.outcomes).getD []
    let normalizedOutcome : Option String :=
      match outcome with
      | some o => if o ≠ "" then some (normalizeOutcomeLabel o) else none
      | none => none
    if jsOptTruthy normalizedOutcome ∧ outcomes.length = tokens.length ∧ outcomes.length > 0 then
      match outcomes.findIdx? (fun o => normalizeOutcomeLabel o = normalizedOutcome.getD "") with
      | some idx =>
        if tokens.getD idx "" ≠ "" then .ok (tokens.getD idx "", some (outcomes.getD idx ""))
        else .error (.unknownOutcome (outcome.getD ""))
      | none => .error (.unknownOutcome (outcome.getD ""))
    else
      if normalizedOutcome = some "yes" ∧ tokens.getD 0 "" ≠ "" then .ok (tokens.getD 0 "", some "Yes")
      else if normalizedOutcome = some "no" ∧ tokens.getD 1 "" ≠ "" then .ok (tokens.getD 1 "", some "No")
      else if ¬jsOptTruthy normalizedOutcome ∧ tokens.getD 0 "" ≠ "" then
        .ok (tokens.getD 0 "", outcomes.get? 0)
      else .error .provideTokenId

/-- Allowlist membership: empty or unset allowlist admits everything, a
blank slug is rejected, otherwise the trimmed slug must match a trimmed
entry exactly. -/
def isAllowedMarket (config : PluginConfig) (marketSlug : Option String) : Bool :=
  match config.allowedMarketSlugs with
  | none => true
  | some allow =>
    if allow.length = 0 then true
    else
      let slug := jsTrim (marketSlug.getD "")
      if slug = "" then false else allow.any (fun entry => jsTrim entry = slug)

/-- Approximate notional: price times size (dollars per share times shares). -/
def approxNotionalUsd (price size : ℚ) : ℚ := price * size

/-- Tick alignment: a non-positive tick size (the rational residue of a
non-finite or non-positive number) imposes no constraint; otherwise the
price-to-tick quotient must be within 1e-9 of its rounding. -/
def isMultipleOfTick (value tickSize : ℚ) : Bool :=
  if tickSize ≤ 0 then true
  else
    let scaled := value / tickSize
    let rounded : ℤ := round scaled
    decide (|(rounded : ℚ) - scaled| < 1 / 10 ^ 9)

/-! ## JS coercion helpers for the dynamically-typed decoded payload -/

/-- Number.parseFloat: skip leading whitespace and an optional sign, then
the longest decimal prefix with optional fraction and exponent; no digits
(or Infinity) is modelled as none, the NaN of the exact model. -/
def parseFloatParts (l : List Char) : Option (ℚ × List Char) :=
  let (iv, icnt, rest1) := scanDigits 0 0 l
  match rest1 with
  | '.' :: r =>
    let (fv, fcnt, r2) := scanDigits 0 0 r
    if icnt = 0 ∧ fcnt = 0 then none
    else some ((iv : ℚ) + (fv : ℚ) / 10 ^ fcnt, r2)
  | _ => if icnt = 0 then none else some ((iv : ℚ), rest1)

/-- Optional exponent suffix for parseFloat, sharing the JSON number
grammar's exponent handling. -/
def applyExpFloat (q : ℚ) (l : List Char) : ℚ × List Char :=
  (parseExpPart q l).getD (q, l)

/-- Number.parseFloat on a string, prefix semantics (trailing junk ignored). -/
def parseFloatQ (s : String) : Option ℚ :=
  let l := s.data.dropWhile isJsWs
  match l with
  | '-' :: rest => (parseFloatParts rest).map (fun p => -(applyExpFloat p.1 p.2).1)
  | '+' :: rest => (parseFloatParts rest).map (fun p => (applyExpFloat p.1 p.2).1)
  | _ => (parseFloatParts l).map (fun p => (applyExpFloat p.1 p.2).1)

/-- Signed full-width numeric parse for ToNumber on strings: the whole
(already trimmed) character list must be consumed. -/
def jsStrNumber (l2 : List Char) : Option ℚ :=
  let signed : Option (ℚ × List Char) :=
    match l2 with
    | '-' :: rest => (parseFloatParts rest).map (fun p =>
        let r := applyExpFloat p.1 p.2
        (-r.1, r.2))
    | '+' :: rest => (parseFloatParts rest).map (fun p => applyExpFloat p.1 p.2)
    | _ => (parseFloatParts l2).map (fun p => applyExpFloat p.1 p.2)
  signed.bind (fun p => if p.2 = [] then some p.1 else none)

/-- ToNumber coercion for the JSON values that can appear in a decoded
payload field; none plays NaN.  Strings must parse in full, the empty or
blank string is zero. -/
def jsToNum : Json → Option ℚ
  | .num q => some q
  | .str s =>
    let l := s.data.dropWhile isJsWs
    let l2 := (l.reverse.dropWhile isJsWs).reverse
    if l2 = [] then some 0 else jsStrNumber l2
  | .bool b => some (if b then 1 else 0)
  | .null => some 0
  | .arr _ => none
  | .obj _ => none

/-- JS truthiness of a JSON value. -/
def jsTruthy : Json → Bool
  | .null => false
  | .bool b => b
  | .num q => q ≠ 0
  | .str s => s ≠ ""
  | .arr _ => true
  | .obj _ => true

/-- JS strict equality on JSON values (objects and arrays compare by
reference, so distinct parsed values never compare equal). -/
def jsStrictEq : Json → Json → Bool
  | .str a, .str b => a = b
  | .num a, .num b => a = b
  | .bool a, .bool b => a = b
  | .null, .null => true
  | _, _ => false

/-- Field access on a decoded payload object; none is undefined. -/
def getField (j : Json) (k : String) : Option Json :=
  match j with
  | .obj ms => (ms.find? (fun p => p.1 = k)).map (fun p => p.2)
  | _ => none

/-! ## The resume branch of execute -/

/-- What the resume branch hands the external order-matching client when it
submits: the raw descriptor fields, the side decision, and the freshly
fetched tick size and risk classification. -/
structure SubmitArgs where
  tokenID : Option Json
  price : Option Json
  size : Option Json
  sideBuy : Bool
  tickSize : String
  negRisk : Bool

/-- Responses of the external order-matching client during resume: the
current tick size string and the risk classification. -/
structure ResumeEnv where
  tickSizeStr : String
  negRisk : Bool

/-- Every way the resume branch can end.  Thrown exceptions are caught at
the outer boundary and reported; they are separate constructors so the
theorems can tell outcomes apart.  Only the submitted constructor invokes
the external order-matching client. -/
inductive ResumeOutcome where
  | sandboxedErr
  | thrownParam (label : String)
  | missingKey
  | decodeFailed (e : DecodeError)
  | expired
  | sessionMismatch
  | cancelled
  | tradingDisabled
  | unsupportedAction
  | typeErrorThrown
  | marketNotAllowed
  | invalidTick
  | submitted (args : SubmitArgs)

/-- Whether an outcome performed the external submission call. -/
def ResumeOutcome.isSubmission : ResumeOutcome → Bool
  | .submitted _ => true
  | _ => false

/-- The expiry gate: pending.expiresAtMs truthy and now beyond it
(a zero, absent or empty-ish field is falsy and skips the check). -/
def expiredCheck (pending : Json) (now : ℚ) : Bool :=
  match getField pending "expiresAtMs" with
  | some f =>
    jsTruthy f &&
      (match jsToNum f with
       | some v => decide (now > v)
       | none => false)
  | none => false

/-- The session gate: descriptor binding truthy, context session truthy,
and strictly unequal. -/
def sessionMismatchCheck (pending : Json) (ctx : ToolContext) : Bool :=
  match getField pending "sessionKey" with
  | some f =>
    jsTruthy f && jsOptTruthy ctx.sessionKey &&
      !(jsStrictEq f (.str (ctx.sessionKey.getD "")))
  | none => false

/-- pending.market?.slug as handed to the allowlist check.  A non-string
non-null slug value reaches a .trim() call on a non-string and throws. -/
def pendingMarketSlug (pending : Json) : Except Unit (Option String) :=
  match getField pending "market" with
  | some (.obj m) =>
    match ((m.find? (fun p => p.1 = "slug")).map (fun p => p.2) : Option Json) with
    | some (.str s) => .ok (some s)
    | some .null => .ok none
    | none => .ok none
    | some _ => .error ()
  | _ => .ok none

/-- pending.action === "place_order". -/
def pendingActionOk (pending : Json) : Bool :=
  match getField pending "action" with
  | some (.str s) => s = "place_order"
  | _ => false

/-- The tail of the resume branch after all lifecycle gates: fetch the
current tick size, re-validate alignment against it, fetch the risk
classification, and submit. -/
def resumeSubmit (pending : Json) (env : ResumeEnv) : ResumeOutcome :=
  let tickSizeStr := env.tickSizeStr
  let tickSizeNum := parseFloatQ tickSizeStr
  let aligned :=
    match tickSizeNum with
    | some t =>
      match (getField pending "price").bind jsToNum with
      | some p => isMultipleOfTick p t
      | none => false
    | none => true
  if !aligned then .invalidTick
  else
    .submitted
      { tokenID := getField pending "tokenId"
        price := getField pending "price"
        size := getField pending "size"
        sideBuy :=
          match getField pending "side" with
          | some (.str s) => s = "buy"
          | _ => false
        tickSize := tickSizeStr
        negRisk := env.negRisk }

/-- The lifecycle gates the resume branch runs on a decoded payload:
expiry, session, the reject short-circuit, trading enabled, supported
action, allowlist re-check, then submission. -/
def resumeAfterDecode (config : PluginConfig) (ctx : ToolContext) (pending : Json)
    (approveB : Bool) (now : ℚ) (env : ResumeEnv) : ResumeOutcome :=
  if expiredCheck pending now then .expired
  else if sessionMismatchCheck pending ctx then .sessionMismatch
  else if !approveB then .cancelled
  else if !config.tradeEnabled then .tradingDisabled
  else if !pendingActionOk pending then .unsupportedAction
  else
    let hasAllowlist :=
      match config.allowedMarketSlugs with
      | some allow => allow.length != 0
      | none => false
    if hasAllowlist then
      match pendingMarketSlug pending with
      | .error _ => .typeErrorThrown
      | .ok slug =>
        if !isAllowedMarket config slug then .marketNotAllowed
        else resumeSubmit pending env
    else resumeSubmit pending env

/-- The resume branch of execute, gate for gate: sandbox, parameter
reading, credential, decode, then the lifecycle gates. -/
def resumeExec (config : PluginConfig) (ctx : ToolContext) (tokenParam : Option String)
    (approve : Option Bool) (privateKey : Option String) (now : ℚ) (env : ResumeEnv) :
    ResumeOutcome :=
  if ctx.sandboxed then .sandboxedErr
  else
    match tokenParam with
    | none => .thrownParam "token required"
    | some rawToken =>
      let token := jsTrim rawToken
      if token = "" then .thrownParam "token required"
      else
        match approve with
        | none => .thrownParam "approve required"
        | some approveB =>
          match privateKey with
          | none => .missingKey
          | some pk =>
            match decodeResumeToken token pk with
            | .error e => .decodeFailed e
            | .ok pending => resumeAfterDecode config ctx pending approveB now env

/-! ## The place_order branch of execute -/

/-- The raw trading parameters of a place_order request, after the typed
boundary: strings may be absent (non-string or missing), numbers absent
when not a finite number or numeric string. -/
structure PlaceArgs where
  tokenId : Option String
  marketSlug : Option String
  marketId : Option String
  outcome : Option String
  side : Option String
  price : Option ℚ
  size : Option ℚ

/-- Every way the place_order branch can end.  Only needsApproval emits a
token; no constructor submits anything to the venue. -/
inductive PlaceOutcome where
  | tradingDisabledErr
  | sandboxedPlaceErr
  | missingKeyPlace
  | marketRequired
  | marketNotAllowedPlace
  | thrownPlace (label : String)
  | resolveFailed (e : ResolveError)
  | notionalLimit
  | needsApproval (order : PendingOrder) (resumeToken : String)
deriving DecidableEq

/-- Whether a place outcome emitted a resume token. -/
def PlaceOutcome.emitsToken : PlaceOutcome → Bool
  | .needsApproval _ _ => true
  | _ => false

/-- The tail of place_order after market/allowlist/instrument resolution:
side, price and size validation, the notional gate, then the descriptor
and its signed token. -/
def placeOrderStage2 (config : PluginConfig) (ctx : ToolContext) (args : PlaceArgs)
    (pk : String) (market : Option GammaMarket) (marketSlug outcome : String)
    (tokenId : String) (resolvedOutcome : Option String) (now : ℚ) : PlaceOutcome :=
  let sideRaw := jsTrim (args.side.getD "")
  if sideRaw = "" then .thrownPlace "side required"
  else
    let side := jsToLowerCase sideRaw
    if side ≠ "buy" ∧ side ≠ "sell" then .thrownPlace "side must be buy or sell"
    else
      match args.price with
      | none => .thrownPlace "price required"
      | some price =>
        match args.size with
        | none => .thrownPlace "size required"
        | some size =>
          if price ≤ 0 ∨ price ≥ 1 then .thrownPlace "price must be between 0 and 1 exclusive"
          else if size ≤ 0 then .thrownPlace "size must be positive"
          else
            let approx := approxNotionalUsd price size
            if config.maxNotionalUsd > 0 ∧ approx > config.maxNotionalUsd then .notionalLimit
            else
              let order : PendingOrder :=
                { action := "place_order"
                  createdAtMs := now
                  expiresAtMs := now + 5 * 60 * 1000
                  sessionKey := ctx.sessionKey
                  marketId := market.bind (fun m => m.id)
                  marketSlug := some ((market.bind (fun m => m.slug)).getD marketSlug)
                  marketQuestion := market.bind (fun m => m.question)
                  tokenId := tokenId
                  side := side
                  outcome := some (resolvedOutcome.getD outcome)
                  price := price
                  size := size
                  approxNotionalUsd := approx }
              .needsApproval order (encodeResumeToken order pk)

/-- The place_order branch of execute, gate for gate: trading enabled,
sandbox, credential, the allowlist-driven market requirement, allowlist
membership, instrument resolution (explicit token id, resolver, or the
demand for one), then the validation tail. -/
def placeOrderExec (config : PluginConfig) (ctx : ToolContext) (args : PlaceArgs)
    (privateKey : Option String) (gamma : GammaMarket) (now : ℚ) : PlaceOutcome :=
  if !config.tradeEnabled then .tradingDisabledErr
  else if ctx.sandboxed then .sandboxedPlaceErr
  else
    match privateKey with
    | none => .missingKeyPlace
    | some pk =>
      let tokenIdFromArgs := jsTrim (args.tokenId.getD "")
      let marketSlug := jsTrim (args.marketSlug.getD "")
      let marketId := jsTrim (args.marketId.getD "")
      let outcome := jsTrim (args.outcome.getD "")
      let hasAllowlist :=
        match config.allowedMarketSlugs with
        | some allow => allow.length != 0
        | none => false
      let market : Option GammaMarket :=
        if marketSlug ≠ "" ∨ marketId ≠ "" then some gamma else none
      if market.isNone && hasAllowlist then .marketRequired
      else
        let allowRejected :=
          match market with
          | some m => !isAllowedMarket config m.slug
          | none => false
        if allowRejected then .marketNotAllowedPlace
        else
          if tokenIdFromArgs ≠ "" then
            placeOrderStage2 config ctx args pk market marketSlug outcome tokenIdFromArgs none now
          else
            match market with
            | some m =>
              match resolveOutcomeToken m (some outcome) with
              | .ok r => placeOrderStage2 config ctx args pk market marketSlug outcome r.1 r.2 now
              | .error e => .resolveFailed e
            | none => .thrownPlace "provide tokenId"

/-! ## Concrete test vectors and tamper bookkeeping -/

/-- Positions at which two equal-length character lists differ (a length
difference counts the unmatched tail wholesale). -/
def diffCount : List Char → List Char → Nat
  | [], l => l.length
  | l, [] => l.length
  | a :: as, b :: bs => (if a = b then 0 else 1) + diffCount as bs

/-- The signing secret of the concrete vectors. -/
def cSecret : String := "k"

/-- A non-sandboxed, unbound context. -/
def cCtx : ToolContext := { sandboxed := false, sessionKey := none }

/-- A resume environment quoting a one-cent tick. -/
def cEnv : ResumeEnv := { tickSizeStr := "0.01", negRisk := false }

/-- Trading on, no notional limit, no allowlist. -/
def cConfig : PluginConfig :=
  { tradeEnabled := true, maxNotionalUsd := 0, allowedMarketSlugs := none }

/-- A staged-shape descriptor whose expiry stamp is zero. -/
def cOrderZ : PendingOrder :=
  { action := "place_order", createdAtMs := 0, expiresAtMs := 0, sessionKey := none,
    marketId := none, marketSlug := none, marketQuestion := none, tokenId := "T1",
    side := "buy", outcome := none, price := 1/2, size := 2, approxNotionalUsd := 1 }

/-- cOrderZ with a nonzero expiry stamp. -/
def cOrderE : PendingOrder := { cOrderZ with expiresAtMs := 5 }

/-- cOrderZ bound to a session. -/
def cOrderS : PendingOrder := { cOrderZ with sessionKey := some "alice" }

/-- A context bound to a different session. -/
def cCtxB : ToolContext := { sandboxed := false, sessionKey := some "bob" }

/-- A binary market with labelled outcomes and two instruments. -/
def cMarket : GammaMarket :=
  { id := some "M1", slug := some "m1", question := none,
    outcomes := some "[\"Yes\",\"No\"]", clobTokenIds := some "[\"T1\",\"T2\"]" }

/-- A market record with no instrument list. -/
def cMarketEmpty : GammaMarket :=
  { id := none, slug := none, question := none, outcomes := none, clobTokenIds := none }

/-- Trading on with a 100-dollar notional limit. -/
def cConfigB : PluginConfig :=
  { tradeEnabled := true, maxNotionalUsd := 100, allowedMarketSlugs := none }

/-- Scenario-B arguments: 0.62 times 1000 shares of notional. -/
def cArgsB : PlaceArgs :=
  { tokenId := some "T1", marketSlug := none, marketId := none, outcome := none,
    side := some "buy", price := some (62/100), size := some 1000 }

/-- Small valid order arguments. -/
def cArgs10 : PlaceArgs :=
  { tokenId := some "T1", marketSlug := none, marketId := none, outcome := none,
    side := some "buy", price := some (1/2), size := some 2 }

/-- The descriptor place_order stages from cArgs10 at time 1000. -/
def cOrder10 : PendingOrder :=
  { action := "place_order", createdAtMs := 1000, expiresAtMs := 1000 + 5 * 60 * 1000,
    sessionKey := none, marketId := none, marketSlug := some "", marketQuestion := none,
    tokenId := "T1", side := "buy", outcome := some "", price := 1/2, size := 2,
    approxNotionalUsd := approxNotionalUsd (1/2) 2 }

/-- The token staged for cOrderZ under the concrete secret. -/
def cToken : String := encodeResumeToken cOrderZ cSecret

/-- cToken with the final character of its payload segment replaced: the
body is 186 characters, and position 185 carries four slack bits. -/
def cTampered : String := String.mk (cToken.data.set 185 'R')

/-! ## Statement-support predicates -/

instance {e a : Type} [DecidableEq e] [DecidableEq a] : DecidableEq (Except e a) := fun x y =>
  match x, y with
  | .ok v, .ok w =>
    if h : v = w then .isTrue (by rw [h]) else .isFalse (fun hc => h (Except.ok.inj hc))
  | .error v, .error w =>
    if h : v = w then .isTrue (by rw [h]) else .isFalse (fun hc => h (Except.error.inj hc))
  | .ok _, .error _ => .isFalse (fun hc => Except.noConfusion hc)
  | .error _, .ok _ => .isFalse (fun hc => Except.noConfusion hc)

/-- A character list that cannot extend a preceding number token. -/
def NumBoundary (rest : List Char) : Prop :=
  ∀ c, rest.head? = some c → isDigitC c = false ∧ c ≠ '.' ∧ c ≠ 'e' ∧ c ≠ 'E'

/-- All number fields of a descriptor terminate within the decimal
rendering fuel (true of every IEEE double, hence of every descriptor the
staging step can build). -/
def TerminatingOrder (o : PendingOrder) : Prop :=
  DecTerminates o.createdAtMs ∧ DecTerminates o.expiresAtMs ∧
    DecTerminates o.price ∧ DecTerminates o.size ∧ DecTerminates o.approxNotionalUsd

instance (o : PendingOrder) : Decidable (TerminatingOrder o) := by
  unfold TerminatingOrder; infer_instance

/-- Object members as rendered between the braces (no leading comma on
the first member). -/
def renderMembersBody : List (String × Json) → List Char
  | [] => []
  | m :: ms => renderStr m.1 ++ ':' :: renderJson m.2 ++ renderMembersTail ms

/-- A rendered value parses back as itself at every fuel of at least n,
leaving any rest that cannot extend a number token. -/
def ValParsesGe (n : Nat) (v : Json) : Prop :=
  ∀ fuel rest, n ≤ fuel → NumBoundary rest →
    parseVal (fuel + 1) (renderJson v ++ rest) = some (v, rest)

/-! # Theorems -/

/-! ## Characters and digits -/

theorem char_toNat_ofNat (n : Nat) (h : n < 55296) : (Char.ofNat n).toNat = n := by
  unfold Char.ofNat
  rw [dif_pos]
  · rfl
  · exact Or.inl (by exact_mod_cast h)

theorem char_eq_iff_toNat {a b : Char} : a = b ↔ a.toNat = b.toNat := by
  constructor
  · intro h; rw [h]
  · intro h
    rcases a with ⟨⟨a, _⟩, _⟩
    rcases b with ⟨⟨b, _⟩, _⟩
    simp [Char.toNat, UInt32.toNat] at h
    simp [h]

theorem toNat_digitChar {n : Nat} (h : n < 10) : (digitChar n).toNat = 48 + n :=
  char_toNat_ofNat _ (by omega)

theorem isDigitC_digitChar {n : Nat} (h : n < 10) : isDigitC (digitChar n) = true := by
  simp [isDigitC, toNat_digitChar h]; omega

theorem digitChar_sub (n : Nat) (h : n < 10) : (digitChar n).toNat - 48 = n := by
  rw [toNat_digitChar h]; omega

/-! ## Digit strings -/

theorem digitsVal_nil (acc : Nat) : digitsVal acc [] = acc := rfl

theorem digitsVal_cons (acc : Nat) (c : Char) (l : List Char) :
    digitsVal acc (c :: l) = digitsVal (acc * 10 + (c.toNat - 48)) l := rfl

theorem scanDigits_nil (acc cnt : Nat) : scanDigits acc cnt [] = (acc, cnt, []) := rfl

theorem scanDigits_cons (acc cnt : Nat) (c : Char) (l : List Char) :
    scanDigits acc cnt (c :: l) =
      if isDigitC c then scanDigits (acc * 10 + (c.toNat - 48)) (cnt + 1) l
      else (acc, cnt, c :: l) := rfl

theorem digitsVal_append (l1 l2 : List Char) (acc : Nat) :
    digitsVal acc (l1 ++ l2) = digitsVal (digitsVal acc l1) l2 := by
  induction l1 generalizing acc with
  | nil => rfl
  | cons c rest ih =>
    simp only [List.cons_append, digitsVal_cons]
    exact ih _
  
theorem digitsVal_acc (l : List Char) (acc : Nat) :
    digitsVal acc l = acc * 10 ^ l.length + digitsVal 0 l := by
  induction l generalizing acc with
  | nil => simp [digitsVal_nil]
  | cons c rest ih =>
    simp only [digitsVal_cons, List.length_cons]
    rw [ih, ih (0 * 10 + (c.toNat - 48))]
    ring

theorem scanDigits_append (l rest : List Char) (acc cnt : Nat)
    (hl : ∀ c ∈ l, isDigitC c = true)
    (hrest : ∀ c, rest.head? = some c → isDigitC c = false) :
    scanDigits acc cnt (l ++ rest) = (digitsVal acc l, cnt + l.length, rest) := by
  induction l generalizing acc cnt with
  | nil =>
    simp only [List.nil_append, digitsVal_nil, List.length_nil, Nat.add_zero]
    cases rest with
    | nil => rfl
    | cons c r =>
      have := hrest c rfl
      simp [scanDigits_cons, this]
  | cons c l2 ih =>
    have hc : isDigitC c = true := hl c (List.mem_cons_self c l2)
    simp only [List.cons_append, scanDigits_cons, hc, if_pos]
    rw [ih _ _ (fun d hd => hl d (List.mem_cons_of_mem c hd))]
    simp [digitsVal_cons]
    omega

theorem natToCharsAux_ne_nil (fuel n : Nat) : natToCharsAux (fuel + 1) n ≠ [] := by
  rw [natToCharsAux]
  split <;> simp

theorem natToChars_ne_nil (n : Nat) : natToChars n ≠ [] := natToCharsAux_ne_nil n n

theorem natToCharsAux_digits (fuel : Nat) :
    ∀ n, ∀ c ∈ natToCharsAux fuel n, isDigitC c = true := by
  induction fuel with
  | zero => intro n c hc; simp [natToCharsAux] at hc
  | succ fuel ih =>
    intro n c hc
    rw [natToCharsAux] at hc
    split at hc
    · simp at hc
      subst hc
      exact isDigitC_digitChar (by omega)
    · rw [List.mem_append] at hc
      rcases hc with hc | hc
      · exact ih (n / 10) c hc
      · simp at hc
        subst hc
        exact isDigitC_digitChar (Nat.mod_lt _ (by omega))

theorem natToChars_digits (n : Nat) : ∀ c ∈ natToChars n, isDigitC c = true :=
  natToCharsAux_digits (n + 1) n

theorem digitsVal_natToCharsAux (fuel : Nat) :
    ∀ n, n < 10 ^ fuel → digitsVal 0 (natToCharsAux fuel n) = n := by
  induction fuel with
  | zero =>
    intro n hn
    simp at hn
    simp [natToCharsAux, digitsVal_nil, hn]
  | succ fuel ih =>
    intro n hn
    rw [natToCharsAux]
    split
    · rename_i h
      simp [digitsVal_cons, digitsVal_nil, digitChar_sub n h]
    · rename_i h
      have hdiv : n / 10 < 10 ^ fuel := by
        rw [pow_succ] at hn
        omega
      rw [digitsVal_append, ih (n / 10) hdiv]
      simp [digitsVal_cons, digitsVal_nil]
      rw [digitChar_sub _ (Nat.mod_lt _ (by omega))]
      omega

theorem digitsVal_natToChars (n : Nat) : digitsVal 0 (natToChars n) = n := by
  apply digitsVal_natToCharsAux
  calc n < 10 ^ n := Nat.lt_pow_self (by omega) n
    _ ≤ 10 ^ (n + 1) := Nat.pow_le_pow_right (by omega) (by omega)

/-! ## Fractional digit strings -/

theorem fracChars_zero (q : ℚ) : fracChars q 0 = [] := rfl

theorem fracChars_succ (q : ℚ) (fuel : Nat) :
    fracChars q (fuel + 1) =
      if q = 0 then []
      else digitChar (q * 10).floor.toNat :: fracChars (q * 10 - (q * 10).floor) fuel := rfl

theorem den_one_exists {q : ℚ} (h : q.den = 1) : ∃ z : ℤ, q = (z : ℚ) :=
  ⟨q.num, by exact_mod_cast ((Rat.den_eq_one_iff q).mp h).symm⟩

theorem ratFloor_eq (q : ℚ) : q.floor = ⌊q⌋ := rfl

theorem floor_toNat_lt_ten {q : ℚ} (h0 : 0 ≤ q) (h1 : q < 1) : (q * 10).floor.toNat < 10 := by
  rw [ratFloor_eq]
  have hub : ⌊q * 10⌋ < 10 := Int.floor_lt.mpr (by exact_mod_cast (show q * 10 < (10 : ℚ) by linarith))
  have hlb : 0 ≤ ⌊q * 10⌋ := Int.floor_nonneg.mpr (by positivity)
  omega

theorem fracChars_digits (fuel : Nat) :
    ∀ q : ℚ, 0 ≤ q → q < 1 → ∀ c ∈ fracChars q fuel, isDigitC c = true := by
  induction fuel with
  | zero => intro q _ _ c hc; simp [fracChars_zero] at hc
  | succ fuel ih =>
    intro q h0 h1 c hc
    rw [fracChars_succ] at hc
    split at hc
    · simp at hc
    · have hf0 : (0 : ℚ) ≤ q * 10 - (q * 10).floor := by
        have := Int.fract_nonneg (q * 10)
        rw [Int.fract, ← ratFloor_eq] at this
        exact this
      have hf1 : q * 10 - ((q * 10).floor : ℚ) < 1 := by
        have := Int.fract_lt_one (q * 10)
        rw [Int.fract, ← ratFloor_eq] at this
        exact this
      rcases List.mem_cons.mp hc with hc | hc
      · subst hc
        exact isDigitC_digitChar (floor_toNat_lt_ten h0 h1)
      · exact ih _ hf0 hf1 c hc

theorem fracChars_val (fuel : Nat) :
    ∀ q : ℚ, 0 ≤ q → q < 1 → (q * 10 ^ fuel).den = 1 →
      ((digitsVal 0 (fracChars q fuel) : Nat) : ℚ) = q * 10 ^ (fracChars q fuel).length := by
  induction fuel with
  | zero =>
    intro q h0 h1 hden
    rcases den_one_exists (by simpa using hden) with ⟨z, hz⟩
    have hz0 : z = 0 := by
      have hzl : (0 : ℤ) ≤ z := by exact_mod_cast hz ▸ h0
      have hzu : z < (1 : ℤ) := by exact_mod_cast hz ▸ h1
      omega
    subst hz0
    simp at hz
    simp [fracChars_zero, digitsVal_nil, hz]
  | succ fuel ih =>
    intro q h0 h1 hden
    rw [fracChars_succ]
    by_cases hq : q = 0
    · simp [hq, digitsVal_nil]
    · rw [if_neg hq]
      have hf0 : (0 : ℚ) ≤ q * 10 - (q * 10).floor := by
        have := Int.fract_nonneg (q * 10)
        rw [Int.fract, ← ratFloor_eq] at this
        exact this
      have hf1 : q * 10 - ((q * 10).floor : ℚ) < 1 := by
        have := Int.fract_lt_one (q * 10)
        rw [Int.fract, ← ratFloor_eq] at this
        exact this
      have hd10 : (q * 10).floor.toNat < 10 := floor_toNat_lt_ten h0 h1
      have hfl0 : 0 ≤ (q * 10).floor := by
        rw [ratFloor_eq]
        exact Int.floor_nonneg.mpr (by positivity)
      have hrec : ((digitsVal 0 (fracChars (q * 10 - (q * 10).floor) fuel) : Nat) : ℚ) =
          (q * 10 - (q * 10).floor) * 10 ^ (fracChars (q * 10 - (q * 10).floor) fuel).length := by
        apply ih _ hf0 hf1
        rcases den_one_exists hden with ⟨z, hz⟩
        have hrw : (q * 10 - ((q * 10).floor : ℚ)) * 10 ^ fuel =
            ((z - (q * 10).floor * 10 ^ fuel : ℤ) : ℚ) := by
          push_cast
          rw [← hz]
          ring
        rw [hrw]
        exact Rat.den_intCast _
      rw [digitsVal_cons, List.length_cons]
      have hsub : (digitChar (q * 10).floor.toNat).toNat - 48 = (q * 10).floor.toNat :=
        digitChar_sub _ hd10
      rw [digitsVal_acc, hsub]
      push_cast
      rw [hrec]
      have hcast : (((q * 10).floor.toNat : ℤ) : ℚ) = (((q * 10).floor : ℤ) : ℚ) := by
        exact_mod_cast congrArg (fun z : ℤ => (z : ℚ)) (Int.toNat_of_nonneg hfl0)
      push_cast at hcast
      rw [hcast]
      ring

/-! ## Number rendering round-trips through the number parser -/

theorem fract_bounds (q : ℚ) : (0 : ℚ) ≤ q - q.floor ∧ q - ((q.floor : ℤ) : ℚ) < 1 := by
  constructor
  · have := Int.fract_nonneg q
    rw [Int.fract, ← ratFloor_eq] at this
    exact this
  · have := Int.fract_lt_one q
    rw [Int.fract, ← ratFloor_eq] at this
    exact this

theorem fract_DecTerminates {q : ℚ} (h : DecTerminates q) :
    ((q - q.floor) * 10 ^ numFuel).den = 1 := by
  rcases den_one_exists h with ⟨z, hz⟩
  have hrw : (q - (q.floor : ℚ)) * 10 ^ numFuel = ((z - q.floor * 10 ^ numFuel : ℤ) : ℚ) := by
    push_cast
    rw [← hz]
    ring
  rw [hrw]
  exact Rat.den_intCast _

theorem fracChars_ne_nil {q : ℚ} (fuel : Nat) (hq : q ≠ 0) (h0 : 0 ≤ q) (h1 : q < 1)
    (hden : (q * 10 ^ fuel).den = 1) : fracChars q fuel ≠ [] := by
  cases fuel with
  | zero =>
    exfalso
    rcases den_one_exists (by simpa using hden) with ⟨z, hz⟩
    have hzl : (0 : ℤ) ≤ z := by exact_mod_cast hz ▸ h0
    have hzu : z < (1 : ℤ) := by exact_mod_cast hz ▸ h1
    have : z = 0 := by omega
    exact hq (by rw [hz, this]; norm_num)
  | succ fuel =>
    rw [fracChars_succ, if_neg hq]
    simp

theorem floor_toNat_cast {q : ℚ} (h0 : 0 ≤ q) : ((q.floor.toNat : Nat) : ℚ) = (q.floor : ℚ) := by
  have : 0 ≤ q.floor := by
    rw [ratFloor_eq]
    exact Int.floor_nonneg.mpr h0
  exact_mod_cast congrArg (fun z : ℤ => (z : ℚ)) (Int.toNat_of_nonneg this)

theorem parseFracPart_nodot (iv : ℚ) (l : List Char)
    (h : ∀ c, l.head? = some c → c ≠ '.') : parseFracPart iv l = (iv, l) := by
  cases l with
  | nil => rfl
  | cons c r =>
    unfold parseFracPart
    split
    · rename_i heq
      injection heq with h1 _
      exact absurd h1 (h c rfl)
    · rfl

theorem parseFracPart_dot (iv : ℚ) (r : List Char) :
    parseFracPart iv ('.' :: r) =
      if (scanDigits 0 0 r).2.1 = 0 then (iv, '.' :: r)
      else (iv + ((scanDigits 0 0 r).1 : ℚ) / 10 ^ (scanDigits 0 0 r).2.1,
        (scanDigits 0 0 r).2.2) := rfl

theorem parseExpPart_noe (q2 : ℚ) (l : List Char)
    (h : ∀ c, l.head? = some c → c ≠ 'e' ∧ c ≠ 'E') : parseExpPart q2 l = some (q2, l) := by
  cases l with
  | nil => rfl
  | cons c r =>
    unfold parseExpPart
    split
    · rename_i heq
      injection heq with h1 _
      exact absurd h1 (h c rfl).1
    · rename_i heq
      injection heq with h1 _
      exact absurd h1 (h c rfl).2
    · rfl

theorem parseNum_not_minus (c : Char) (l : List Char) (h : c ≠ '-') :
    parseNum (c :: l) = parseNumBody (c :: l) := by
  unfold parseNum
  split
  · rename_i heq
    injection heq with h1 _
    exact absurd h1 h
  · rfl

theorem parseNumBody_render (q : ℚ) (h0 : 0 ≤ q) (hterm : DecTerminates q)
    (rest : List Char) (hrest : NumBoundary rest) :
    parseNumBody (renderNumNN q ++ rest) = some (q, rest) := by
  have hdigits := natToChars_digits q.floor.toNat
  have hlen : (natToChars q.floor.toNat).length ≠ 0 := by
    have := natToChars_ne_nil q.floor.toNat
    cases h : natToChars q.floor.toNat with
    | nil => exact absurd h this
    | cons a l => simp
  have hnodot : ∀ c, rest.head? = some c → c ≠ '.' := fun c hc => (hrest c hc).2.1
  have hnoe : ∀ c, rest.head? = some c → c ≠ 'e' ∧ c ≠ 'E' :=
    fun c hc => ⟨(hrest c hc).2.2.1, (hrest c hc).2.2.2⟩
  by_cases hf : q - q.floor = 0
  · -- integer: no fractional part
    have hq : ((q.floor.toNat : Nat) : ℚ) = q := by
      rw [floor_toNat_cast h0]
      have : q = (q.floor : ℚ) := by linarith [sub_eq_zero.mp hf]
      linarith
    have hrender : renderNumNN q ++ rest = natToChars q.floor.toNat ++ rest := by
      unfold renderNumNN
      rw [if_pos hf]
      simp
    rw [hrender]
    unfold parseNumBody
    rw [scanDigits_append _ _ _ _ hdigits (fun c hc => ((hrest c hc).1))]
    simp only [digitsVal_natToChars, Nat.zero_add]
    rw [if_neg hlen, parseFracPart_nodot _ _ hnodot, parseExpPart_noe _ _ hnoe, hq]
  · -- fractional part present
    have hb0 := (fract_bounds q).1
    have hb1 := (fract_bounds q).2
    have hfden := fract_DecTerminates hterm
    have hfd := fracChars_digits numFuel (q - q.floor) hb0 hb1
    have hfne := fracChars_ne_nil numFuel hf hb0 hb1 hfden
    have hflen : (fracChars (q - q.floor) numFuel).length ≠ 0 := by
      cases h : fracChars (q - q.floor) numFuel with
      | nil => exact absurd h hfne
      | cons a l => simp
    have hrender : renderNumNN q ++ rest =
        natToChars q.floor.toNat ++ ('.' :: (fracChars (q - q.floor) numFuel ++ rest)) := by
      unfold renderNumNN
      rw [if_neg hf]
      simp
    rw [hrender]
    unfold parseNumBody
    rw [scanDigits_append _ _ _ _ hdigits (fun c hc => by simp at hc; subst hc; rfl)]
    simp only [digitsVal_natToChars, Nat.zero_add]
    rw [if_neg hlen, parseFracPart_dot,
      scanDigits_append _ _ _ _ hfd (fun c hc => ((hrest c hc).1))]
    simp only [Nat.zero_add]
    rw [if_neg hflen]
    have hval : ((digitsVal 0 (fracChars (q - q.floor) numFuel) : Nat) : ℚ) =
        (q - q.floor) * 10 ^ (fracChars (q - q.floor) numFuel).length :=
      fracChars_val numFuel _ hb0 hb1 hfden
    have hq : ((q.floor.toNat : Nat) : ℚ) +
        ((digitsVal 0 (fracChars (q - q.floor) numFuel) : Nat) : ℚ) /
          10 ^ (fracChars (q - q.floor) numFuel).length = q := by
      rw [floor_toNat_cast h0, hval]
      have hpow : (0 : ℚ) < 10 ^ (fracChars (q - q.floor) numFuel).length := by positivity
      field_simp
    rw [parseExpPart_noe _ _ hnoe, hq]

/-! ## String literal rendering round-trips through the string parser -/

theorem hexVal_hexChar : ∀ m, m < 16 → hexVal (hexChar m) = some m := by decide

theorem parseStrBody_nil : parseStrBody [] = none := rfl

theorem parseStrBody_quote (rest : List Char) : parseStrBody ('"' :: rest) = some ([], rest) := rfl

theorem parseStrBody_esc_quote (rest : List Char) :
    parseStrBody ('\\' :: '"' :: rest) = (parseStrBody rest).map (fun p => ('"' :: p.1, p.2)) := rfl

theorem parseStrBody_esc_bs (rest : List Char) :
    parseStrBody ('\\' :: '\\' :: rest) =
      (parseStrBody rest).map (fun p => ('\\' :: p.1, p.2)) := rfl

theorem parseStrBody_esc_b (rest : List Char) :
    parseStrBody ('\\' :: 'b' :: rest) =
      (parseStrBody rest).map (fun p => (Char.ofNat 8 :: p.1, p.2)) := rfl

theorem parseStrBody_esc_t (rest : List Char) :
    parseStrBody ('\\' :: 't' :: rest) =
      (parseStrBody rest).map (fun p => (Char.ofNat 9 :: p.1, p.2)) := rfl

theorem parseStrBody_esc_n (rest : List Char) :
    parseStrBody ('\\' :: 'n' :: rest) =
      (parseStrBody rest).map (fun p => (Char.ofNat 10 :: p.1, p.2)) := rfl

theorem parseStrBody_esc_f (rest : List Char) :
    parseStrBody ('\\' :: 'f' :: rest) =
      (parseStrBody rest).map (fun p => (Char.ofNat 12 :: p.1, p.2)) := rfl

theorem parseStrBody_esc_r (rest : List Char) :
    parseStrBody ('\\' :: 'r' :: rest) =
      (parseStrBody rest).map (fun p => (Char.ofNat 13 :: p.1, p.2)) := rfl

theorem parseStrBody_esc_u (h1 h2 h3 h4 : Char) (rest : List Char) :
    parseStrBody ('\\' :: 'u' :: h1 :: h2 :: h3 :: h4 :: rest) =
      (match hexVal h1, hexVal h2, hexVal h3, hexVal h4 with
       | some v1, some v2, some v3, some v4 =>
         (parseStrBody rest).map
           (fun p => (Char.ofNat (v1 * 4096 + v2 * 256 + v3 * 16 + v4) :: p.1, p.2))
       | _, _, _, _ => none) := rfl

theorem parseStrBody_plain (c : Char) (l : List Char) (hq : c ≠ '"') (hb : c ≠ '\\') :
    parseStrBody (c :: l) = (parseStrBody l).map (fun p => (c :: p.1, p.2)) := by
  conv_lhs => unfold parseStrBody
  split
  · rename_i heq
    exact List.noConfusion heq
  · rename_i heq
    injection heq with hh _
    exact absurd hh hq
  · rename_i e r heq
    injection heq with hh _
    exact absurd hh hb
  · rename_i c2 r2 heq
    injection heq with hh1 hh2
    subst hh1
    subst hh2
    rfl

theorem parseStrBody_esc_u_vals (v1 v2 v3 v4 : Nat) (h1 h2 h3 h4 : Char) (rest : List Char)
    (e1 : hexVal h1 = some v1) (e2 : hexVal h2 = some v2)
    (e3 : hexVal h3 = some v3) (e4 : hexVal h4 = some v4) :
    parseStrBody ('\\' :: 'u' :: h1 :: h2 :: h3 :: h4 :: rest) =
      (parseStrBody rest).map
        (fun p => (Char.ofNat (v1 * 4096 + v2 * 256 + v3 * 16 + v4) :: p.1, p.2)) := by
  rw [parseStrBody_esc_u, e1, e2, e3, e4]

theorem parseStrBody_render (l rest : List Char) :
    parseStrBody (l.flatMap escapeChar ++ '"' :: rest) = some (l, rest) := by
  induction l with
  | nil => simpa using parseStrBody_quote rest
  | cons c cs ih =>
    simp only [List.flatMap_cons, List.append_assoc]
    by_cases h1 : c = '"'
    · subst h1
      rw [show escapeChar '"' = ['\\', '"'] from rfl]
      simp only [List.cons_append, List.nil_append]
      rw [parseStrBody_esc_quote, ih]
      rfl
    · by_cases h2 : c = '\\'
      · subst h2
        rw [show escapeChar '\\' = ['\\', '\\'] from rfl]
        simp only [List.cons_append, List.nil_append]
        rw [parseStrBody_esc_bs, ih]
        rfl
      · by_cases h3 : c = Char.ofNat 8
        · subst h3
          rw [show escapeChar (Char.ofNat 8) = ['\\', 'b'] from rfl]
          simp only [List.cons_append, List.nil_append]
          rw [parseStrBody_esc_b, ih]
          rfl
        · by_cases h4 : c = Char.ofNat 9
          · subst h4
            rw [show escapeChar (Char.ofNat 9) = ['\\', 't'] from rfl]
            simp only [List.cons_append, List.nil_append]
            rw [parseStrBody_esc_t, ih]
            rfl
          · by_cases h5 : c = Char.ofNat 10
            · subst h5
              rw [show escapeChar (Char.ofNat 10) = ['\\', 'n'] from rfl]
              simp only [List.cons_append, List.nil_append]
              rw [parseStrBody_esc_n, ih]
              rfl
            · by_cases h6 : c = Char.ofNat 12
              · subst h6
                rw [show escapeChar (Char.ofNat 12) = ['\\', 'f'] from rfl]
                simp only [List.cons_append, List.nil_append]
                rw [parseStrBody_esc_f, ih]
                rfl
              · by_cases h7 : c = Char.ofNat 13
                · subst h7
                  rw [show escapeChar (Char.ofNat 13) = ['\\', 'r'] from rfl]
                  simp only [List.cons_append, List.nil_append]
                  rw [parseStrBody_esc_r, ih]
                  rfl
                · by_cases hc : c.toNat < 32
                  · have hesc : escapeChar c =
                        ['\\', 'u', '0', '0', hexChar (c.toNat / 16), hexChar (c.toNat % 16)] := by
                      unfold escapeChar
                      rw [if_neg h1, if_neg h2, if_neg h3, if_neg h4, if_neg h5, if_neg h6,
                        if_neg h7, if_pos hc]
                    rw [hesc]
                    simp only [List.cons_append, List.nil_append]
                    rw [parseStrBody_esc_u_vals 0 0 (c.toNat / 16) (c.toNat % 16) '0' '0'
                      (hexChar (c.toNat / 16)) (hexChar (c.toNat % 16)) _
                      rfl rfl (hexVal_hexChar _ (by omega)) (hexVal_hexChar _ (by omega))]
                    have harith : 0 * 4096 + 0 * 256 + c.toNat / 16 * 16 + c.toNat % 16 =
                        c.toNat := by omega
                    simp only [harith, Char.ofNat_toNat]
                    rw [ih]
                    rfl
                  · have hesc : escapeChar c = [c] := by
                      unfold escapeChar
                      rw [if_neg h1, if_neg h2, if_neg h3, if_neg h4, if_neg h5, if_neg h6,
                        if_neg h7, if_neg hc]
                    rw [hesc]
                    simp only [List.singleton_append]
                    rw [parseStrBody_plain c _ h1 h2, ih]
                    rfl

theorem renderStr_parse (s : String) (rest : List Char) :
    parseStrBody (s.data.flatMap escapeChar ++ '"' :: rest) = some (s.data, rest) :=
  parseStrBody_render s.data rest

theorem renderNumNN_head_digit (q : ℚ) :
    ∀ c, (renderNumNN q ++ [] : List Char).head? = some c → isDigitC c = true := by
  intro c hc
  unfold renderNumNN at hc
  cases h : natToChars q.floor.toNat with
  | nil => exact absurd h (natToChars_ne_nil _)
  | cons a l =>
    rw [h] at hc
    simp at hc
    rw [← hc]
    exact natToChars_digits _ a (h ▸ List.mem_cons_self a l)

theorem renderNum_parse (q : ℚ) (hterm : DecTerminates q)
    (rest : List Char) (hrest : NumBoundary rest) :
    parseNum (renderNum q ++ rest) = some (q, rest) := by
  by_cases hneg : q < 0
  · have hterm2 : DecTerminates (-q) := by
      unfold DecTerminates at hterm ⊢
      rw [show -q * 10 ^ numFuel = -(q * 10 ^ numFuel) by ring, Rat.neg_den]
      exact hterm
    unfold renderNum
    rw [if_pos hneg]
    simp only [List.cons_append]
    unfold parseNum
    split
    · rename_i r2 heq
      injection heq with _ h2
      rw [← h2, parseNumBody_render (-q) (by linarith) hterm2 rest hrest]
      simp
    · rename_i hne
      exact ((hne (renderNumNN (-q) ++ rest) rfl)).elim
  · unfold renderNum
    rw [if_neg hneg]
    cases h : natToChars q.floor.toNat with
    | nil => exact absurd h (natToChars_ne_nil _)
    | cons a l =>
      have hhead : ∃ t, renderNumNN q ++ rest = a :: t := by
        unfold renderNumNN
        rw [h]
        exact ⟨l ++ (if q - q.floor = 0 then [] else
          '.' :: fracChars (q - q.floor) numFuel) ++ rest, by simp⟩
      rcases hhead with ⟨t, ht⟩
      have hadig : isDigitC a = true := natToChars_digits _ a (h ▸ List.mem_cons_self a l)
      have hanm : a ≠ '-' := by
        intro heq
        subst heq
        have hfalse : isDigitC '-' = false := by decide
        exact Bool.noConfusion (hfalse.symm.trans hadig)
      rw [ht, parseNum_not_minus a t hanm, ← ht,
        parseNumBody_render q (not_lt.mp hneg) hterm rest hrest]


/-! ## Rendering and parser equation lemmas -/

theorem mk_data (s : String) : String.mk s.data = s := rfl

theorem renderJson_num (q : ℚ) : renderJson (.num q) = renderNum q := rfl

theorem renderJson_str (s : String) : renderJson (.str s) = renderStr s := rfl

theorem renderJson_obj_nil : renderJson (.obj []) = [lbrace, rbrace] := rfl

theorem renderJson_obj_cons (m : String × Json) (ms : List (String × Json)) :
    renderJson (.obj (m :: ms)) =
      lbrace :: renderStr m.1 ++ ':' :: renderJson m.2 ++ renderMembersTail ms ++ [rbrace] := rfl

theorem renderMembersTail_nil : renderMembersTail [] = [] := rfl

theorem renderMembersTail_cons (m : String × Json) (ms : List (String × Json)) :
    renderMembersTail (m :: ms) =
      ',' :: renderStr m.1 ++ ':' :: renderJson m.2 ++ renderMembersTail ms := rfl

theorem renderMembersBody_cons (m : String × Json) (ms : List (String × Json)) :
    renderMembersBody (m :: ms) =
      renderStr m.1 ++ ':' :: renderJson m.2 ++ renderMembersTail ms := rfl

theorem renderMembersTail_eq_body (m : String × Json) (ms : List (String × Json)) :
    renderMembersTail (m :: ms) = ',' :: renderMembersBody (m :: ms) := rfl

theorem renderJson_obj_body (m : String × Json) (ms : List (String × Json)) :
    renderJson (.obj (m :: ms)) = lbrace :: (renderMembersBody (m :: ms) ++ rbrace :: []) := by
  rw [renderJson_obj_cons, renderMembersBody_cons]
  simp

theorem renderStr_append (k : String) (Z : List Char) :
    renderStr k ++ Z = '"' :: (k.data.flatMap escapeChar ++ '"' :: Z) := by
  simp [renderStr]

theorem skipWs_nil : skipWs [] = [] := rfl

theorem skipWs_colon (l : List Char) : skipWs (':' :: l) = ':' :: l := rfl

theorem skipWs_comma (l : List Char) : skipWs (',' :: l) = ',' :: l := rfl

theorem skipWs_quote (l : List Char) : skipWs ('"' :: l) = '"' :: l := rfl

theorem skipWs_rbrace (l : List Char) : skipWs (rbrace :: l) = rbrace :: l := rfl

theorem skipWs_cons_eq (c : Char) (l : List Char) :
    skipWs (c :: l) =
      if c = ' ' ∨ c = Char.ofNat 9 ∨ c = Char.ofNat 10 ∨ c = Char.ofNat 13 then skipWs l
      else c :: l := rfl

theorem parseVal_quote (fuel : Nat) (X : List Char) :
    parseVal (fuel + 1) ('"' :: X) =
      (parseStrBody X).map (fun p => (Json.str (String.mk p.1), p.2)) := rfl

theorem parseVal_lbrace (fuel : Nat) (X : List Char) :
    parseVal (fuel + 1) (lbrace :: X) =
      (match skipWs X with
       | c2 :: rest2 =>
         if c2 = rbrace then some (.obj [], rest2)
         else (parseMembers fuel (c2 :: rest2)).map (fun p => (.obj p.1, p.2))
       | [] => none) := rfl

theorem parseMembers_cons (fuel : Nat) (Y : List Char) :
    parseMembers (fuel + 1) ('"' :: Y) =
      (match parseStrBody Y with
       | none => none
       | some (k, rest2) =>
         match skipWs rest2 with
         | ':' :: rest3 =>
           (match parseVal fuel rest3 with
            | none => none
            | some (v, rest4) =>
              match skipWs rest4 with
              | ',' :: rest5 =>
                (parseMembers fuel rest5).map (fun p => ((String.mk k, v) :: p.1, p.2))
              | c :: rest5 =>
                if c = rbrace then some ([(String.mk k, v)], rest5) else none
              | [] => none)
         | _ => none) := rfl

theorem numBoundary_nil : NumBoundary [] := fun c hc => by simp at hc

theorem numBoundary_cons {x : Char} (l : List Char)
    (h : isDigitC x = false ∧ x ≠ '.' ∧ x ≠ 'e' ∧ x ≠ 'E') : NumBoundary (x :: l) := by
  intro c hc
  simp at hc
  rw [← hc]
  exact h

theorem numBoundary_comma (l : List Char) : NumBoundary (',' :: l) :=
  numBoundary_cons l (by decide)

theorem numBoundary_rbrace (l : List Char) : NumBoundary (rbrace :: l) :=
  numBoundary_cons l (by decide)

theorem numBoundary_rbracket (l : List Char) : NumBoundary (']' :: l) :=
  numBoundary_cons l (by decide)

/-! ## Rendered values parse back -/

theorem valParsesGe_mono {m n : Nat} {v : Json} (h : m ≤ n) (hv : ValParsesGe m v) :
    ValParsesGe n v :=
  fun fuel rest hf hb => hv fuel rest (le_trans h hf) hb

theorem valParsesGe_str (s : String) : ValParsesGe 0 (.str s) := by
  intro fuel rest _ _
  rw [renderJson_str, renderStr_append, parseVal_quote, parseStrBody_render]
  simp [mk_data]

theorem parseVal_succ_eq (fuel : Nat) (l : List Char) :
    parseVal (fuel + 1) l =
      (match skipWs l with
       | '"' :: rest => (parseStrBody rest).map (fun p => (Json.str (String.mk p.1), p.2))
       | 't' :: 'r' :: 'u' :: 'e' :: rest => some (.bool true, rest)
       | 'f' :: 'a' :: 'l' :: 's' :: 'e' :: rest => some (.bool false, rest)
       | 'n' :: 'u' :: 'l' :: 'l' :: rest => some (.null, rest)
       | '[' :: rest =>
         (match skipWs rest with
          | ']' :: rest2 => some (.arr [], rest2)
          | l2 => (parseElems fuel l2).map (fun p => (.arr p.1, p.2)))
       | c :: rest =>
         if c = lbrace then
           (match skipWs rest with
            | c2 :: rest2 =>
              if c2 = rbrace then some (.obj [], rest2)
              else (parseMembers fuel (c2 :: rest2)).map (fun p => (.obj p.1, p.2))
            | [] => none)
         else (parseNum (c :: rest)).map (fun p => (.num p.1, p.2))
       | [] => none) := rfl

theorem parseVal_default_num (fuel : Nat) (c : Char) (l : List Char)
    (hws : ¬(c = ' ' ∨ c = Char.ofNat 9 ∨ c = Char.ofNat 10 ∨ c = Char.ofNat 13))
    (h1 : c ≠ '"') (ht : c ≠ 't') (hf : c ≠ 'f') (hn : c ≠ 'n') (hbk : c ≠ '[')
    (ho : c ≠ lbrace) :
    parseVal (fuel + 1) (c :: l) = (parseNum (c :: l)).map (fun p => (Json.num p.1, p.2)) := by
  rw [parseVal_succ_eq, skipWs_cons_eq, if_neg hws]
  split
  · rename_i heq
    injection heq with hh _
    exact absurd hh h1
  · rename_i heq
    injection heq with hh _
    exact absurd hh ht
  · rename_i heq
    injection heq with hh _
    exact absurd hh hf
  · rename_i heq
    injection heq with hh _
    exact absurd hh hn
  · rename_i heq
    injection heq with hh _
    exact absurd hh hbk
  · rename_i c2 r2 heq
    injection heq with hh1 hh2
    subst hh1
    subst hh2
    rw [if_neg ho]
  · rename_i heq
    exact List.noConfusion heq

theorem digit_head_ok {c : Char} (h : isDigitC c = true) :
    ¬(c = ' ' ∨ c = Char.ofNat 9 ∨ c = Char.ofNat 10 ∨ c = Char.ofNat 13) ∧
      c ≠ '"' ∧ c ≠ 't' ∧ c ≠ 'f' ∧ c ≠ 'n' ∧ c ≠ '[' ∧ c ≠ lbrace := by
  have hn : 48 ≤ c.toNat ∧ c.toNat ≤ 57 := by
    unfold isDigitC at h
    simp only [Bool.and_eq_true, decide_eq_true_eq] at h
    exact h
  have e1 : (' ').toNat = 32 := rfl
  have e2 : (Char.ofNat 9).toNat = 9 := rfl
  have e3 : (Char.ofNat 10).toNat = 10 := rfl
  have e4 : (Char.ofNat 13).toNat = 13 := rfl
  have e5 : ('"').toNat = 34 := rfl
  have e6 : ('t').toNat = 116 := rfl
  have e7 : ('f').toNat = 102 := rfl
  have e8 : ('n').toNat = 110 := rfl
  have e9 : ('[').toNat = 91 := rfl
  have e10 : lbrace.toNat = 123 := rfl
  refine ⟨?_, ?_, ?_, ?_, ?_, ?_, ?_⟩
  · rintro (hc | hc | hc | hc) <;> rw [char_eq_iff_toNat] at hc <;> omega
  all_goals intro hc
  all_goals rw [char_eq_iff_toNat] at hc
  all_goals omega

theorem valParsesGe_num {q : ℚ} (hterm : DecTerminates q) : ValParsesGe 0 (.num q) := by
  intro fuel rest _ hb
  rw [renderJson_num]
  have hparse := renderNum_parse q hterm rest hb
  by_cases hneg : q < 0
  · have hshape : renderNum q ++ rest = '-' :: (renderNumNN (-q) ++ rest) := by
      unfold renderNum
      rw [if_pos hneg]
      simp
    rw [hshape]
    rw [parseVal_default_num fuel '-' _ (by decide) (by decide) (by decide) (by decide)
      (by decide) (by decide) (by decide)]
    rw [hshape] at hparse
    rw [hparse]
    rfl
  · cases h : natToChars q.floor.toNat with
    | nil => exact absurd h (natToChars_ne_nil _)
    | cons a l =>
      have hshape : ∃ t, renderNum q ++ rest = a :: t := by
        unfold renderNum renderNumNN
        rw [if_neg hneg, h]
        exact ⟨l ++ (if q - q.floor = 0 then [] else
          '.' :: fracChars (q - q.floor) numFuel) ++ rest, by simp⟩
      rcases hshape with ⟨t, ht⟩
      have hadig : isDigitC a = true := natToChars_digits _ a (h ▸ List.mem_cons_self a l)
      have hok := digit_head_ok hadig
      rw [ht, parseVal_default_num fuel a t hok.1 hok.2.1 hok.2.2.1 hok.2.2.2.1
        hok.2.2.2.2.1 hok.2.2.2.2.2.1 hok.2.2.2.2.2.2]
      rw [ht] at hparse
      rw [hparse]
      rfl

theorem parseMembers_render (n : Nat) (ms : List (String × Json)) :
    ∀ (fuel : Nat) (rest : List Char),
      ms ≠ [] → (∀ m ∈ ms, ValParsesGe n m.2) → ms.length + n + 1 ≤ fuel →
      parseMembers fuel (renderMembersBody ms ++ rbrace :: rest) = some (ms, rest) := by
  induction ms with
  | nil => intro fuel rest hne _ _; exact absurd rfl hne
  | cons m ms ih =>
    intro fuel rest _ hv hfuel
    obtain ⟨k, v⟩ := m
    cases fuel with
    | zero => simp at hfuel
    | succ f =>
      rw [renderMembersBody_cons]
      have harr : ((renderStr k ++ ':' :: renderJson v ++ renderMembersTail ms) ++
            rbrace :: rest) =
          '"' :: (k.data.flatMap escapeChar ++
            '"' :: (':' :: (renderJson v ++ (renderMembersTail ms ++ rbrace :: rest)))) := by
        simp [renderStr]
      rw [harr, parseMembers_cons]
      have hkey := parseStrBody_render k.data
        (':' :: (renderJson v ++ (renderMembersTail ms ++ rbrace :: rest)))
      simp only [hkey, skipWs_colon]
      cases f with
      | zero => simp only [List.length_cons] at hfuel; omega
      | succ f2 =>
        have hvv : parseVal (f2 + 1) (renderJson v ++ (renderMembersTail ms ++ rbrace :: rest)) =
            some (v, renderMembersTail ms ++ rbrace :: rest) := by
          apply hv (k, v) (List.mem_cons_self _ _) f2 _ (by simp at hfuel; omega)
          cases ms with
          | nil =>
            rw [renderMembersTail_nil]
            simpa using numBoundary_rbrace rest
          | cons m2 ms2 =>
            rw [renderMembersTail_eq_body]
            exact numBoundary_comma _
        simp only [hvv]
        cases ms with
        | nil =>
          rw [renderMembersTail_nil]
          simp only [List.nil_append, skipWs_rbrace]
          rfl
        | cons m2 ms2 =>
          rw [renderMembersTail_eq_body]
          simp only [List.cons_append, skipWs_comma]
          have hrec := ih (f2 + 1) rest (by simp) (fun m hm => hv m (List.mem_cons_of_mem _ hm))
            (by simp only [List.length_cons] at hfuel ⊢; omega)
          have hfin : Option.map (fun p => ((String.mk k.data, v) :: p.1, p.2))
              (parseMembers (f2 + 1) (renderMembersBody (m2 :: ms2) ++ rbrace :: rest)) =
              some ((String.mk k.data, v) :: m2 :: ms2, rest) := by
            rw [hrec]
            rfl
          exact hfin

theorem valParsesGe_obj_nil : ValParsesGe 0 (.obj []) := by
  intro fuel rest _ _
  rw [renderJson_obj_nil,
    show ([lbrace, rbrace] : List Char) ++ rest = lbrace :: (rbrace :: rest) by simp,
    parseVal_lbrace, skipWs_rbrace]
  simp

theorem valParsesGe_obj (n : Nat) (ms : List (String × Json)) (hne : ms ≠ [])
    (hv : ∀ m ∈ ms, ValParsesGe n m.2) : ValParsesGe (ms.length + n + 1) (.obj ms) := by
  intro fuel rest hfuel _
  obtain ⟨m, ms2, rfl⟩ : ∃ m ms2, ms = m :: ms2 := by
    cases ms with
    | nil => exact absurd rfl hne
    | cons a l => exact ⟨a, l, rfl⟩
  rw [renderJson_obj_body,
    show (lbrace :: (renderMembersBody (m :: ms2) ++ rbrace :: [])) ++ rest =
      lbrace :: (renderMembersBody (m :: ms2) ++ rbrace :: rest) by simp,
    parseVal_lbrace]
  have harr : renderMembersBody (m :: ms2) ++ rbrace :: rest =
      '"' :: (m.1.data.flatMap escapeChar ++
        '"' :: (':' :: (renderJson m.2 ++ (renderMembersTail ms2 ++ rbrace :: rest)))) := by
    rw [renderMembersBody_cons]
    simp [renderStr]
  have hmem := parseMembers_render n (m :: ms2) fuel rest (by simp) hv hfuel
  rw [harr] at hmem
  rw [harr, skipWs_quote]
  exact (congrArg (Option.map (fun p => (Json.obj p.1, p.2))) hmem).trans rfl

/-! ## The rendered descriptor parses back -/

theorem data_mk (l : List Char) : (String.mk l).data = l := rfl

theorem valParses4_str (s : String) : ValParsesGe 4 (.str s) :=
  valParsesGe_mono (by omega) (valParsesGe_str s)

theorem valParses4_num {q : ℚ} (h : DecTerminates q) : ValParsesGe 4 (.num q) :=
  valParsesGe_mono (by omega) (valParsesGe_num h)

theorem optMember_length_le {α : Type} (k : String) (ov : Option α) (f : α → Json) :
    (optMember k (ov.map f)).length ≤ 1 := by
  cases ov <;> simp [optMember]

theorem optMember_cases {α : Type} {k : String} {ov : Option α} {f : α → Json}
    {m : String × Json} (hm : m ∈ optMember k (ov.map f)) :
    ∃ a, ov = some a ∧ m = (k, f a) := by
  cases ov with
  | none => simp [optMember] at hm
  | some a =>
    have hred : optMember k ((some a).map f) = [(k, f a)] := rfl
    rw [hred] at hm
    simp only [List.mem_singleton] at hm
    exact ⟨a, rfl, hm⟩

theorem marketObj_parses (i sl qn : Option String) :
    ValParsesGe 4 (.obj (optMember "id" (i.map .str) ++ optMember "slug" (sl.map .str) ++
      optMember "question" (qn.map .str))) := by
  by_cases h : (optMember "id" (i.map Json.str) ++ optMember "slug" (sl.map Json.str) ++
      optMember "question" (qn.map Json.str)) = []
  · rw [h]
    exact valParsesGe_mono (by omega) valParsesGe_obj_nil
  · have hlen : (optMember "id" (i.map Json.str) ++ optMember "slug" (sl.map Json.str) ++
        optMember "question" (qn.map Json.str)).length ≤ 3 := by
      have h1 := optMember_length_le "id" i Json.str
      have h2 := optMember_length_le "slug" sl Json.str
      have h3 := optMember_length_le "question" qn Json.str
      simp only [List.length_append]
      omega
    refine valParsesGe_mono ?_ (valParsesGe_obj 0 _ h ?_)
    · omega
    · intro m hm
      rcases List.mem_append.mp hm with hm2 | hm2
      · rcases List.mem_append.mp hm2 with hm3 | hm3
        · rcases optMember_cases hm3 with ⟨a, _, rfl⟩
          exact valParsesGe_str a
        · rcases optMember_cases hm3 with ⟨a, _, rfl⟩
          exact valParsesGe_str a
      · rcases optMember_cases hm2 with ⟨a, _, rfl⟩
        exact valParsesGe_str a

theorem toJson_members (o : PendingOrder) :
    ∃ rest2 : List (String × Json),
      toJson o = .obj (("action", Json.str o.action) :: ("createdAtMs", Json.num o.createdAtMs) ::
        ("expiresAtMs", Json.num o.expiresAtMs) :: rest2) ∧
      rest2.length ≤ 8 ∧
      (TerminatingOrder o → ∀ m ∈ (("action", Json.str o.action) ::
        ("createdAtMs", Json.num o.createdAtMs) ::
        ("expiresAtMs", Json.num o.expiresAtMs) :: rest2), ValParsesGe 4 m.2) := by
  refine ⟨optMember "sessionKey" (o.sessionKey.map .str) ++
    [("market", .obj (optMember "id" (o.marketId.map .str) ++
      optMember "slug" (o.marketSlug.map .str) ++
      optMember "question" (o.marketQuestion.map .str)))] ++
    [("tokenId", .str o.tokenId), ("side", .str o.side)] ++
    optMember "outcome" (o.outcome.map .str) ++
    [("price", .num o.price), ("size", .num o.size),
     ("approxNotionalUsd", .num o.approxNotionalUsd)], ?_, ?_, ?_⟩
  · unfold toJson
    simp
  · have h1 := optMember_length_le "sessionKey" o.sessionKey Json.str
    have h2 := optMember_length_le "outcome" o.outcome Json.str
    simp only [List.length_append]
    simp
    omega
  · intro hterm m hm
    obtain ⟨htc, hte, htp, hts, hta⟩ := hterm
    rcases List.mem_cons.mp hm with rfl | hm
    · exact valParses4_str _
    · rcases List.mem_cons.mp hm with rfl | hm
      · exact valParses4_num htc
      · rcases List.mem_cons.mp hm with rfl | hm
        · exact valParses4_num hte
        · rcases List.mem_append.mp hm with hm2 | hm2
          · rcases List.mem_append.mp hm2 with hm3 | hm3
            · rcases List.mem_append.mp hm3 with hm4 | hm4
              · rcases List.mem_append.mp hm4 with hm5 | hm5
                · rcases optMember_cases hm5 with ⟨a, _, rfl⟩
                  exact valParses4_str a
                · simp only [List.mem_singleton] at hm5
                  subst hm5
                  exact marketObj_parses _ _ _
              · rcases List.mem_cons.mp hm4 with rfl | hm4
                · exact valParses4_str _
                · simp only [List.mem_singleton] at hm4
                  subst hm4
                  exact valParses4_str _
            · rcases optMember_cases hm3 with ⟨a, _, rfl⟩
              exact valParses4_str a
          · rcases List.mem_cons.mp hm2 with rfl | hm2
            · exact valParses4_num htp
            · rcases List.mem_cons.mp hm2 with rfl | hm2
              · exact valParses4_num hts
              · simp only [List.mem_singleton] at hm2
                subst hm2
                exact valParses4_num hta

theorem renderStr_action_len : (renderStr "action").length = 8 := rfl

theorem renderStr_created_len : (renderStr "createdAtMs").length = 13 := rfl

theorem parseJson_render_toJson (o : PendingOrder) (hterm : TerminatingOrder o) :
    parseJson (String.mk (renderJson (toJson o))) = some (toJson o) := by
  rcases toJson_members o with ⟨rest2, hto, hlen, hval⟩
  have hv := hval hterm
  rw [hto]
  set ms := ("action", Json.str o.action) :: ("createdAtMs", Json.num o.createdAtMs) ::
    ("expiresAtMs", Json.num o.expiresAtMs) :: rest2 with hms
  have hbig : 16 ≤ (renderJson (.obj ms)).length := by
    rw [hms, renderJson_obj_cons, renderMembersTail_cons]
    simp only [List.length_cons, List.length_append, renderStr_action_len,
      renderStr_created_len]
    omega
  unfold parseJson
  rw [data_mk]
  have hmslen : ms.length = rest2.length + 3 := by rw [hms]; simp
  have hobj := valParsesGe_obj 4 ms (by rw [hms]; simp) hv
    (renderJson (Json.obj ms)).length []
    (by omega) numBoundary_nil
  rw [List.append_nil] at hobj
  simp only [hobj, skipWs_nil]
  simp

/-! ## Termination of decimal rendering -/

theorem decTerminates_of_dvd (q : ℚ) (h : (q.den : ℤ) ∣ 10 ^ numFuel) : DecTerminates q := by
  unfold DecTerminates
  rcases h with ⟨c, hc⟩
  have hden : (q.den : ℚ) ≠ 0 := by
    exact_mod_cast q.den_nz
  have h10 : ((10 : ℚ)) ^ numFuel = ((q.den : ℚ)) * (c : ℚ) := by
    have := congrArg (fun z : ℤ => (z : ℚ)) hc
    push_cast at this
    exact this
  have hqd : q * (q.den : ℚ) = (q.num : ℚ) := Rat.mul_den_eq_num q
  have heq : q * (10 : ℚ) ^ numFuel = ((q.num * c : ℤ) : ℚ) := by
    rw [h10, ← mul_assoc, hqd]
    push_cast
    ring
  rw [heq, Rat.den_intCast]

theorem decTerminates_int (n : ℤ) : DecTerminates (n : ℚ) := by
  apply decTerminates_of_dvd
  rw [Rat.den_intCast]
  exact one_dvd _

theorem decTerminates_den_dvd_100 (q : ℚ) (h : q.den ∣ 100) : DecTerminates q := by
  apply decTerminates_of_dvd
  have h2 : (q.den : ℤ) ∣ (100 : ℤ) := Int.natCast_dvd_natCast.mpr h
  refine dvd_trans h2 ?_
  have : (100 : ℤ) = 10 ^ 2 := by norm_num
  rw [this]
  exact pow_dvd_pow 10 (by norm_num [numFuel])

/-! ## Trimming -/

theorem dropWhile_eq_self_of_head {p : Char → Bool} {l : List Char}
    (h : ∀ c, l.head? = some c → p c = false) : l.dropWhile p = l := by
  cases l with
  | nil => rfl
  | cons a as =>
    rw [List.dropWhile_cons_of_neg]
    simp [h a rfl]

theorem jsTrim_eq_self (l : List Char)
    (h : ∀ c ∈ l, isJsWs c = false) : jsTrim (String.mk l) = String.mk l := by
  unfold jsTrim
  rw [data_mk]
  rw [dropWhile_eq_self_of_head (fun c hc => h c (List.mem_of_mem_head? hc))]
  rw [dropWhile_eq_self_of_head (fun c hc => h c
    (by
      have := List.mem_of_mem_head? hc
      exact List.mem_reverse.mp this))]
  rw [List.reverse_reverse]

/-! ## Fields of the rendered descriptor -/

theorem getField_action (o : PendingOrder) :
    getField (toJson o) "action" = some (.str o.action) := rfl

theorem getField_createdAtMs (o : PendingOrder) :
    getField (toJson o) "createdAtMs" = some (.num o.createdAtMs) := rfl

theorem getField_expiresAtMs (o : PendingOrder) :
    getField (toJson o) "expiresAtMs" = some (.num o.expiresAtMs) := rfl

theorem getField_sessionKey (o : PendingOrder) :
    getField (toJson o) "sessionKey" = o.sessionKey.map .str := by
  rcases o with ⟨ac, cr, ex, sk, mi, ms, mq, ti, sd, oc, pr, sz, ap⟩
  cases sk <;> cases oc <;> rfl

theorem getField_tokenId (o : PendingOrder) :
    getField (toJson o) "tokenId" = some (.str o.tokenId) := by
  rcases o with ⟨ac, cr, ex, sk, mi, ms, mq, ti, sd, oc, pr, sz, ap⟩
  cases sk <;> rfl

theorem getField_side (o : PendingOrder) :
    getField (toJson o) "side" = some (.str o.side) := by
  rcases o with ⟨ac, cr, ex, sk, mi, ms, mq, ti, sd, oc, pr, sz, ap⟩
  cases sk <;> rfl

theorem getField_price (o : PendingOrder) :
    getField (toJson o) "price" = some (.num o.price) := by
  rcases o with ⟨ac, cr, ex, sk, mi, ms, mq, ti, sd, oc, pr, sz, ap⟩
  cases sk <;> cases oc <;> rfl

theorem getField_size (o : PendingOrder) :
    getField (toJson o) "size" = some (.num o.size) := by
  rcases o with ⟨ac, cr, ex, sk, mi, ms, mq, ti, sd, oc, pr, sz, ap⟩
  cases sk <;> cases oc <;> rfl

theorem pendingMarketSlug_toJson (o : PendingOrder) :
    pendingMarketSlug (toJson o) = .ok o.marketSlug := by
  rcases o with ⟨ac, cr, ex, sk, mi, ms, mq, ti, sd, oc, pr, sz, ap⟩
  cases sk <;> cases mi <;> cases ms <;> cases mq <;> rfl

theorem isRecordJ_toJson (o : PendingOrder) : isRecordJ (toJson o) = true := rfl

/-! ## Splitting on the dot -/

theorem splitDot_cons_ne (c : Char) (rest : List Char) (h : c ≠ '.') :
    splitDot (c :: rest) =
      match splitDot rest with
      | s :: ss => (c :: s) :: ss
      | [] => [[c]] := by
  simp [splitDot, h]

theorem splitDot_no_dot (l : List Char) (h : '.' ∉ l) : splitDot l = [l] := by
  induction l with
  | nil => rfl
  | cons c rest ih =>
    have hc : c ≠ '.' := fun hc => h (hc ▸ List.mem_cons_self c rest)
    rw [splitDot_cons_ne c rest hc, ih (fun hm => h (List.mem_cons_of_mem c hm))]

theorem splitDot_append (a b : List Char) (h : '.' ∉ a) :
    splitDot (a ++ '.' :: b) = a :: splitDot b := by
  induction a with
  | nil =>
    simp [splitDot]
  | cons c as ih =>
    have hc : c ≠ '.' := fun hc => h (hc ▸ List.mem_cons_self c as)
    rw [List.cons_append, splitDot_cons_ne c (as ++ '.' :: b) hc,
      ih (fun hm => h (List.mem_cons_of_mem c hm))]

/-! ## UTF-8 round-trip -/

theorem char_toNat_lt (c : Char) : c.toNat < 1114112 := by
  rcases c.valid with h | ⟨h1, h2⟩
  · exact lt_trans h (by norm_num)
  · exact h2

theorem utf8Encode_cons (c : Char) (cs : List Char) :
    utf8Encode (c :: cs) = utf8Char c ++ utf8Encode cs := rfl

theorem utf8Char_length_pos (c : Char) : 0 < (utf8Char c).length := by
  simp only [utf8Char]
  split_ifs <;> simp

theorem utf8Encode_length_ge (cs : List Char) : cs.length ≤ (utf8Encode cs).length := by
  induction cs with
  | nil => simp [utf8Encode]
  | cons c cs ih =>
    rw [utf8Encode_cons, List.length_append, List.length_cons]
    have := utf8Char_length_pos c
    omega

theorem utf8Char_lt256 (c : Char) : ∀ b ∈ utf8Char c, b < 256 := by
  have hn := char_toNat_lt c
  simp only [utf8Char]
  split_ifs <;> intro b hb <;> simp at hb <;> omega

theorem utf8Encode_lt256 (cs : List Char) : ∀ b ∈ utf8Encode cs, b < 256 := by
  induction cs with
  | nil => simp [utf8Encode]
  | cons c cs ih =>
    rw [utf8Encode_cons]
    intro b hb
    rcases List.mem_append.mp hb with hb | hb
    · exact utf8Char_lt256 c b hb
    · exact ih b hb

theorem utf8DecodeAux_one (f b : Nat) (r : Bytes) (h : b < 128) :
    utf8DecodeAux (f + 1) (b :: r) = Char.ofNat b :: utf8DecodeAux f r := by
  conv_lhs => unfold utf8DecodeAux
  rw [if_pos h]

theorem utf8DecodeAux_two (f b1 b2 : Nat) (r : Bytes)
    (h1 : 192 ≤ b1) (h2 : b1 < 224) (h3 : 128 ≤ b2) (h4 : b2 < 192) :
    utf8DecodeAux (f + 1) (b1 :: b2 :: r) =
      Char.ofNat ((b1 - 192) * 64 + (b2 - 128)) :: utf8DecodeAux f r := by
  conv_lhs => unfold utf8DecodeAux
  rw [if_neg (by omega), if_pos ⟨h1, h2⟩]
  show (if 128 ≤ b2 ∧ b2 < 192
      then Char.ofNat ((b1 - 192) * 64 + (b2 - 128)) :: utf8DecodeAux f r
      else Char.ofNat 65533 :: utf8DecodeAux f (b2 :: r)) = _
  rw [if_pos ⟨h3, h4⟩]

theorem utf8DecodeAux_three (f b1 b2 b3 : Nat) (r : Bytes)
    (h1 : 224 ≤ b1) (h2 : b1 < 240) (h3 : 128 ≤ b2) (h4 : b2 < 192)
    (h5 : 128 ≤ b3) (h6 : b3 < 192) :
    utf8DecodeAux (f + 1) (b1 :: b2 :: b3 :: r) =
      Char.ofNat ((b1 - 224) * 4096 + (b2 - 128) * 64 + (b3 - 128)) :: utf8DecodeAux f r := by
  conv_lhs => unfold utf8DecodeAux
  rw [if_neg (by omega), if_neg (by omega), if_pos ⟨h1, h2⟩]
  show (if (128 ≤ b2 ∧ b2 < 192) ∧ (128 ≤ b3 ∧ b3 < 192)
      then Char.ofNat ((b1 - 224) * 4096 + (b2 - 128) * 64 + (b3 - 128)) :: utf8DecodeAux f r
      else Char.ofNat 65533 :: utf8DecodeAux f (b2 :: b3 :: r)) = _
  rw [if_pos ⟨⟨h3, h4⟩, h5, h6⟩]

theorem utf8DecodeAux_four (f b1 b2 b3 b4 : Nat) (r : Bytes)
    (h1 : 240 ≤ b1) (h2 : b1 < 248) (h3 : 128 ≤ b2) (h4 : b2 < 192)
    (h5 : 128 ≤ b3) (h6 : b3 < 192) (h7 : 128 ≤ b4) (h8 : b4 < 192) :
    utf8DecodeAux (f + 1) (b1 :: b2 :: b3 :: b4 :: r) =
      Char.ofNat ((b1 - 240) * 262144 + (b2 - 128) * 4096 + (b3 - 128) * 64 + (b4 - 128)) ::
        utf8DecodeAux f r := by
  conv_lhs => unfold utf8DecodeAux
  rw [if_neg (by omega), if_neg (by omega), if_neg (by omega), if_pos ⟨h1, h2⟩]
  show (if (128 ≤ b2 ∧ b2 < 192) ∧ (128 ≤ b3 ∧ b3 < 192) ∧ (128 ≤ b4 ∧ b4 < 192)
      then Char.ofNat ((b1 - 240) * 262144 + (b2 - 128) * 4096 + (b3 - 128) * 64 + (b4 - 128)) ::
        utf8DecodeAux f r
      else Char.ofNat 65533 :: utf8DecodeAux f (b2 :: b3 :: b4 :: r)) = _
  rw [if_pos ⟨⟨h3, h4⟩, ⟨h5, h6⟩, h7, h8⟩]

theorem utf8DecodeAux_encode (cs : List Char) :
    ∀ fuel, cs.length ≤ fuel → utf8DecodeAux fuel (utf8Encode cs) = cs := by
  induction cs with
  | nil =>
    intro fuel _
    cases fuel <;> rfl
  | cons c cs ih =>
    intro fuel hf
    cases fuel with
    | zero => simp at hf
    | succ f =>
      have hn := char_toNat_lt c
      have hrec := ih f (by simpa using hf)
      rw [utf8Encode_cons]
      simp only [utf8Char]
      by_cases h1 : c.toNat < 128
      · rw [if_pos h1]
        simp only [List.cons_append, List.nil_append]
        rw [utf8DecodeAux_one f _ _ h1, hrec, Char.ofNat_toNat]
      · rw [if_neg h1]
        by_cases h2 : c.toNat < 2048
        · rw [if_pos h2]
          simp only [List.cons_append, List.nil_append]
          rw [utf8DecodeAux_two f _ _ _ (by omega) (by omega) (by omega) (by omega)]
          have harith : (192 + c.toNat / 64 - 192) * 64 + (128 + c.toNat % 64 - 128)
              = c.toNat := by omega
          rw [harith, Char.ofNat_toNat, hrec]
        · rw [if_neg h2]
          by_cases h3 : c.toNat < 65536
          · rw [if_pos h3]
            simp only [List.cons_append, List.nil_append]
            rw [utf8DecodeAux_three f _ _ _ _ (by omega) (by omega) (by omega) (by omega)
              (by omega) (by omega)]
            have harith : (224 + c.toNat / 4096 - 224) * 4096 +
                (128 + c.toNat / 64 % 64 - 128) * 64 + (128 + c.toNat % 64 - 128)
                = c.toNat := by omega
            rw [harith, Char.ofNat_toNat, hrec]
          · rw [if_neg h3]
            simp only [List.cons_append, List.nil_append]
            rw [utf8DecodeAux_four f _ _ _ _ _ (by omega) (by omega) (by omega) (by omega)
              (by omega) (by omega) (by omega) (by omega)]
            have harith : (240 + c.toNat / 262144 - 240) * 262144 +
                (128 + c.toNat / 4096 % 64 - 128) * 4096 +
                (128 + c.toNat / 64 % 64 - 128) * 64 + (128 + c.toNat % 64 - 128)
                = c.toNat := by omega
            rw [harith, Char.ofNat_toNat, hrec]

theorem utf8Decode_encode (cs : List Char) : utf8Decode (utf8Encode cs) = cs :=
  utf8DecodeAux_encode cs _ (utf8Encode_length_ge cs)

theorem utf8Encode_inj {a b : List Char} (h : utf8Encode a = utf8Encode b) : a = b := by
  have ha := utf8Decode_encode a
  rw [h, utf8Decode_encode b] at ha
  exact ha.symm

/-! ## base64url round-trip and alphabet facts -/

theorem charSextet_sextetChar : ∀ v, v < 64 → charSextet (sextetChar v) = some v := by
  decide

theorem sextetChar_ne_dot : ∀ v, v < 64 → sextetChar v ≠ '.' := by decide

theorem sextetChar_not_ws : ∀ v, v < 64 → isJsWs (sextetChar v) = false := by decide

theorem encodeB64_mem (bs : Bytes) (hbs : ∀ b ∈ bs, b < 256) :
    ∀ c ∈ encodeB64 bs, ∃ v, v < 64 ∧ c = sextetChar v := by
  induction bs using encodeB64.induct with
  | case1 b1 b2 b3 rest ih =>
    have hb1 : b1 < 256 := hbs _ (by simp)
    have hb2 : b2 < 256 := hbs _ (by simp)
    have hb3 : b3 < 256 := hbs _ (by simp)
    intro c hc
    rw [show encodeB64 (b1 :: b2 :: b3 :: rest) = sextetChar (b1 / 4) ::
        sextetChar ((b1 % 4) * 16 + b2 / 16) :: sextetChar ((b2 % 16) * 4 + b3 / 64) ::
        sextetChar (b3 % 64) :: encodeB64 rest from rfl] at hc
    rcases List.mem_cons.mp hc with rfl | hc
    · exact ⟨_, by omega, rfl⟩
    rcases List.mem_cons.mp hc with rfl | hc
    · exact ⟨_, by omega, rfl⟩
    rcases List.mem_cons.mp hc with rfl | hc
    · exact ⟨_, by omega, rfl⟩
    rcases List.mem_cons.mp hc with rfl | hc
    · exact ⟨_, by omega, rfl⟩
    exact ih (fun b hb => hbs b (by simp [hb])) c hc
  | case2 b1 b2 =>
    have hb1 : b1 < 256 := hbs _ (by simp)
    have hb2 : b2 < 256 := hbs _ (by simp)
    intro c hc
    rw [show encodeB64 [b1, b2] = [sextetChar (b1 / 4), sextetChar ((b1 % 4) * 16 + b2 / 16),
        sextetChar ((b2 % 16) * 4)] from rfl] at hc
    rcases List.mem_cons.mp hc with rfl | hc
    · exact ⟨_, by omega, rfl⟩
    rcases List.mem_cons.mp hc with rfl | hc
    · exact ⟨_, by omega, rfl⟩
    rcases List.mem_cons.mp hc with rfl | hc
    · exact ⟨_, by omega, rfl⟩
    simp at hc
  | case3 b1 =>
    have hb1 : b1 < 256 := hbs _ (by simp)
    intro c hc
    rw [show encodeB64 [b1] = [sextetChar (b1 / 4), sextetChar ((b1 % 4) * 16)] from rfl] at hc
    rcases List.mem_cons.mp hc with rfl | hc
    · exact ⟨_, by omega, rfl⟩
    rcases List.mem_cons.mp hc with rfl | hc
    · exact ⟨_, by omega, rfl⟩
    simp at hc
  | case4 =>
    intro c hc
    simp [encodeB64] at hc

theorem encodeB64_no_dot (bs : Bytes) (hbs : ∀ b ∈ bs, b < 256) : '.' ∉ encodeB64 bs := by
  intro hm
  rcases encodeB64_mem bs hbs _ hm with ⟨v, hv, he⟩
  exact sextetChar_ne_dot v hv he.symm

theorem encodeB64_not_ws (bs : Bytes) (hbs : ∀ b ∈ bs, b < 256) :
    ∀ c ∈ encodeB64 bs, isJsWs c = false := by
  intro c hm
  rcases encodeB64_mem bs hbs _ hm with ⟨v, hv, he⟩
  exact he ▸ sextetChar_not_ws v hv

theorem decodeB64_encodeB64 (bs : Bytes) (hbs : ∀ b ∈ bs, b < 256) :
    decodeB64 (encodeB64 bs) = bs := by
  unfold decodeB64
  induction bs using encodeB64.induct with
  | case1 b1 b2 b3 rest ih =>
    have hb1 : b1 < 256 := hbs _ (by simp)
    have hb2 : b2 < 256 := hbs _ (by simp)
    have hb3 : b3 < 256 := hbs _ (by simp)
    have e1 := charSextet_sextetChar (b1 / 4) (by omega)
    have e2 := charSextet_sextetChar ((b1 % 4) * 16 + b2 / 16) (by omega)
    have e3 := charSextet_sextetChar ((b2 % 16) * 4 + b3 / 64) (by omega)
    have e4 := charSextet_sextetChar (b3 % 64) (by omega)
    rw [show encodeB64 (b1 :: b2 :: b3 :: rest) = sextetChar (b1 / 4) ::
        sextetChar ((b1 % 4) * 16 + b2 / 16) :: sextetChar ((b2 % 16) * 4 + b3 / 64) ::
        sextetChar (b3 % 64) :: encodeB64 rest from rfl]
    simp only [List.filterMap_cons, e1, e2, e3, e4]
    rw [show sextetsToBytes (b1 / 4 :: ((b1 % 4) * 16 + b2 / 16) ::
        ((b2 % 16) * 4 + b3 / 64) :: b3 % 64 ::
        (encodeB64 rest).filterMap charSextet) =
        (b1 / 4 * 4 + ((b1 % 4) * 16 + b2 / 16) / 16) ::
        ((((b1 % 4) * 16 + b2 / 16) % 16) * 16 + ((b2 % 16) * 4 + b3 / 64) / 4) ::
        ((((b2 % 16) * 4 + b3 / 64) % 4) * 64 + b3 % 64) ::
        sextetsToBytes ((encodeB64 rest).filterMap charSextet) from rfl]
    rw [ih (fun b hb => hbs b (by simp [hb]))]
    congr 1
    · omega
    congr 1
    · omega
    congr 1
    omega
  | case2 b1 b2 =>
    have hb1 : b1 < 256 := hbs _ (by simp)
    have hb2 : b2 < 256 := hbs _ (by simp)
    have e1 := charSextet_sextetChar (b1 / 4) (by omega)
    have e2 := charSextet_sextetChar ((b1 % 4) * 16 + b2 / 16) (by omega)
    have e3 := charSextet_sextetChar ((b2 % 16) * 4) (by omega)
    rw [show encodeB64 [b1, b2] = [sextetChar (b1 / 4), sextetChar ((b1 % 4) * 16 + b2 / 16),
        sextetChar ((b2 % 16) * 4)] from rfl]
    simp only [List.filterMap_cons, e1, e2, e3, List.filterMap_nil]
    rw [show sextetsToBytes [b1 / 4, (b1 % 4) * 16 + b2 / 16, (b2 % 16) * 4] =
        [b1 / 4 * 4 + ((b1 % 4) * 16 + b2 / 16) / 16,
         (((b1 % 4) * 16 + b2 / 16) % 16) * 16 + ((b2 % 16) * 4) / 4] from rfl]
    congr 1
    · omega
    congr 1
    omega
  | case3 b1 =>
    have hb1 : b1 < 256 := hbs _ (by simp)
    have e1 := charSextet_sextetChar (b1 / 4) (by omega)
    have e2 := charSextet_sextetChar ((b1 % 4) * 16) (by omega)
    rw [show encodeB64 [b1] = [sextetChar (b1 / 4), sextetChar ((b1 % 4) * 16)] from rfl]
    simp only [List.filterMap_cons, e1, e2, List.filterMap_nil]
    rw [show sextetsToBytes [b1 / 4, (b1 % 4) * 16] =
        [b1 / 4 * 4 + ((b1 % 4) * 16) / 16] from rfl]
    congr 1
    omega
  | case4 => rfl

/-! ## Token shape and the decode-of-encode round trip -/

theorem wordsToBytes_lt256 (ws : List Nat) : ∀ b ∈ wordsToBytes ws, b < 256 := by
  induction ws with
  | nil => simp [wordsToBytes]
  | cons w rest ih =>
    intro b hb
    rw [show wordsToBytes (w :: rest) = (w >>> 24) % 256 :: (w >>> 16) % 256 ::
        (w >>> 8) % 256 :: w % 256 :: wordsToBytes rest from rfl] at hb
    rcases List.mem_cons.mp hb with rfl | hb
    · omega
    rcases List.mem_cons.mp hb with rfl | hb
    · omega
    rcases List.mem_cons.mp hb with rfl | hb
    · omega
    rcases List.mem_cons.mp hb with rfl | hb
    · omega
    exact ih b hb

theorem sha256_lt256 (m : Bytes) : ∀ b ∈ sha256 m, b < 256 := by
  unfold sha256
  exact wordsToBytes_lt256 _

theorem hmacSha256_lt256 (key msg : Bytes) : ∀ b ∈ hmacSha256 key msg, b < 256 := by
  intro b hb
  exact sha256_lt256 _ b hb

theorem signToken_data (s : String) (key : Bytes) :
    (signToken s key).data = encodeB64 (hmacSha256 key (utf8Encode s.data)) := by
  unfold signToken
  rw [data_mk]

theorem tokenSigChars_eq (o : PendingOrder) (sk : String) :
    tokenSigChars o sk =
      encodeB64 (hmacSha256 (createTokenKey sk) (utf8Encode (renderJson (toJson o)))) := by
  unfold tokenSigChars
  rw [signToken_data, data_mk]

theorem dot_not_mem_body (o : PendingOrder) : '.' ∉ tokenBodyChars o :=
  encodeB64_no_dot _ (utf8Encode_lt256 _)

theorem dot_not_mem_sig (o : PendingOrder) (sk : String) : '.' ∉ tokenSigChars o sk := by
  rw [tokenSigChars_eq]
  exact encodeB64_no_dot _ (hmacSha256_lt256 _ _)

theorem encodeResumeToken_eq (o : PendingOrder) (sk : String) :
    encodeResumeToken o sk = String.mk (tokenBodyChars o ++ '.' :: tokenSigChars o sk) := rfl

theorem decodeResumeToken_two (body sig : List Char) (sk : String)
    (h1 : '.' ∉ body) (h2 : '.' ∉ sig) :
    decodeResumeToken (String.mk (body ++ '.' :: sig)) sk = decodeParts body sig sk := by
  unfold decodeResumeToken
  rw [data_mk, splitDot_append _ _ h1, splitDot_no_dot _ h2]

theorem decodeParts_ok_of_body (o : PendingOrder) (sk : String) (body : List Char)
    (hterm : TerminatingOrder o)
    (hbody : decodeB64 body = utf8Encode (renderJson (toJson o))) :
    decodeParts body (tokenSigChars o sk) sk = .ok (toJson o) := by
  unfold decodeParts
  rw [hbody, utf8Decode_encode]
  have htc : tokenSigChars o sk =
      (signToken (String.mk (renderJson (toJson o))) (createTokenKey sk)).data := rfl
  rw [htc, if_pos ⟨rfl, rfl⟩]
  rw [parseJson_render_toJson o hterm]
  rfl

theorem decodeParts_encode (o : PendingOrder) (sk : String) (hterm : TerminatingOrder o) :
    decodeParts (tokenBodyChars o) (tokenSigChars o sk) sk = .ok (toJson o) :=
  decodeParts_ok_of_body o sk _ hterm
    (by
      unfold tokenBodyChars
      exact decodeB64_encodeB64 _ (utf8Encode_lt256 _))

theorem decodeParts_sig_tamper (o : PendingOrder) (sk : String) (pre suf : List Char)
    (c c' : Char) (hsig : tokenSigChars o sk = pre ++ c :: suf) (hne : c' ≠ c) :
    decodeParts (tokenBodyChars o) (pre ++ c' :: suf) sk = .error .invalidSignature := by
  have hbody : decodeB64 (tokenBodyChars o) = utf8Encode (renderJson (toJson o)) := by
    unfold tokenBodyChars
    exact decodeB64_encodeB64 _ (utf8Encode_lt256 _)
  unfold decodeParts
  rw [hbody, utf8Decode_encode]
  have htc : tokenSigChars o sk =
      (signToken (String.mk (renderJson (toJson o))) (createTokenKey sk)).data := rfl
  rw [if_neg ?_]
  rintro ⟨-, h2⟩
  have hlists : pre ++ c' :: suf = pre ++ c :: suf := by
    have := utf8Encode_inj h2
    rw [this, ← htc, hsig]
  have := List.append_cancel_left hlists
  exact hne (List.cons.inj this).1

theorem decodeResumeToken_encode (o : PendingOrder) (sk : String) (hterm : TerminatingOrder o) :
    decodeResumeToken (encodeResumeToken o sk) sk = .ok (toJson o) := by
  rw [encodeResumeToken_eq,
    decodeResumeToken_two _ _ _ (dot_not_mem_body o) (dot_not_mem_sig o sk),
    decodeParts_encode o sk hterm]

theorem splitDot_ne_nil (l : List Char) : splitDot l ≠ [] := by
  cases l with
  | nil => simp [splitDot]
  | cons c rest =>
    by_cases h : c = '.'
    · simp [splitDot, h]
    · rw [splitDot_cons_ne c rest h]
      cases splitDot rest <;> simp

theorem decode_malformed_dotInSig (o : PendingOrder) (sk : String) (pre suf : List Char)
    (hpre : '.' ∉ pre) (hsuf : '.' ∉ suf) :
    decodeResumeToken (String.mk (tokenBodyChars o ++ '.' :: (pre ++ '.' :: suf))) sk
      = .error .malformedToken := by
  unfold decodeResumeToken
  rw [data_mk, splitDot_append _ _ (dot_not_mem_body o), splitDot_append _ _ hpre,
    splitDot_no_dot _ hsuf]

theorem diffCount_self (l : List Char) : diffCount l l = 0 := by
  induction l with
  | nil => rfl
  | cons a as ih => simp [diffCount, ih]

theorem diffCount_append_left (a b t : List Char) (h : a.length = b.length) :
    diffCount (a ++ t) (b ++ t) = diffCount a b := by
  induction a generalizing b with
  | nil =>
    cases b with
    | nil => simpa [diffCount] using diffCount_self t
    | cons x xs => simp at h
  | cons x xs ih =>
    cases b with
    | nil => simp at h
    | cons y ys =>
      simp only [List.cons_append, diffCount]
      rw [show xs.append t = xs ++ t from rfl, show ys.append t = ys ++ t from rfl,
        ih ys (by simpa using h)]

theorem token_chars_not_ws (o : PendingOrder) (sk : String) :
    ∀ c ∈ tokenBodyChars o ++ '.' :: tokenSigChars o sk, isJsWs c = false := by
  intro c hc
  rcases List.mem_append.mp hc with hc | hc
  · exact encodeB64_not_ws _ (utf8Encode_lt256 _) c hc
  · rcases List.mem_cons.mp hc with rfl | hc
    · decide
    · rw [tokenSigChars_eq] at hc
      exact encodeB64_not_ws _ (hmacSha256_lt256 _ _) c hc

theorem jsTrim_encodeResumeToken (o : PendingOrder) (sk : String) :
    jsTrim (encodeResumeToken o sk) = encodeResumeToken o sk := by
  rw [encodeResumeToken_eq]
  exact jsTrim_eq_self _ (token_chars_not_ws o sk)

theorem encodeResumeToken_ne_empty (o : PendingOrder) (sk : String) :
    encodeResumeToken o sk ≠ "" := by
  rw [encodeResumeToken_eq]
  intro h
  have h2 := congrArg String.data h
  rw [data_mk] at h2
  simp at h2

/-! ## The resume branch on an encoded token -/

theorem resumeExec_encode (config : PluginConfig) (ctx : ToolContext) (o : PendingOrder)
    (sk : String) (b : Bool) (now : ℚ) (env : ResumeEnv)
    (hsand : ctx.sandboxed = false) (hterm : TerminatingOrder o) :
    resumeExec config ctx (some (encodeResumeToken o sk)) (some b) (some sk) now env =
      resumeAfterDecode config ctx (toJson o) b now env := by
  unfold resumeExec
  rw [if_neg (by simp [hsand])]
  simp only [jsTrim_encodeResumeToken]
  rw [if_neg (encodeResumeToken_ne_empty o sk)]
  rw [decodeResumeToken_encode o sk hterm]

/-! ## The lifecycle gates on a rendered descriptor -/

theorem expiredCheck_toJson (o : PendingOrder) (now : ℚ) :
    expiredCheck (toJson o) now =
      (decide (o.expiresAtMs ≠ 0) && decide (now > o.expiresAtMs)) := by
  unfold expiredCheck
  rw [getField_expiresAtMs]
  rfl

theorem expiredCheck_toJson_true (o : PendingOrder) (now : ℚ)
    (hne : o.expiresAtMs ≠ 0) (hlt : o.expiresAtMs < now) :
    expiredCheck (toJson o) now = true := by
  rw [expiredCheck_toJson]
  simp [hne, hlt]

theorem expiredCheck_toJson_false (o : PendingOrder) (now : ℚ)
    (hexp : o.expiresAtMs = 0 ∨ now ≤ o.expiresAtMs) :
    expiredCheck (toJson o) now = false := by
  rw [expiredCheck_toJson]
  rcases hexp with h | h
  · simp [h]
  · simp [show ¬(now > o.expiresAtMs) from not_lt.mpr h]

theorem sessionMismatch_toJson_false (o : PendingOrder) (ctx : ToolContext)
    (h : o.sessionKey = ctx.sessionKey) :
    sessionMismatchCheck (toJson o) ctx = false := by
  unfold sessionMismatchCheck
  rw [getField_sessionKey, ← h]
  cases o.sessionKey with
  | none => rfl
  | some s => simp [jsTruthy, jsOptTruthy, jsStrictEq]

theorem sessionMismatch_toJson_true (o : PendingOrder) (ctx : ToolContext) (s s2 : String)
    (h1 : o.sessionKey = some s) (h2 : s ≠ "") (h3 : ctx.sessionKey = some s2)
    (h4 : s2 ≠ "") (h5 : s ≠ s2) :
    sessionMismatchCheck (toJson o) ctx = true := by
  unfold sessionMismatchCheck
  rw [getField_sessionKey, h1]
  simp [jsTruthy, jsOptTruthy, jsStrictEq, h2, h3, h4, h5]

theorem pendingActionOk_toJson (o : PendingOrder) :
    pendingActionOk (toJson o) = decide (o.action = "place_order") := by
  unfold pendingActionOk
  rw [getField_action]

theorem resumeSubmit_misaligned (o : PendingOrder) (env : ResumeEnv) (t : ℚ)
    (hp : parseFloatQ env.tickSizeStr = some t)
    (hm : isMultipleOfTick o.price t = false) :
    resumeSubmit (toJson o) env = .invalidTick := by
  have h1 : (getField (toJson o) "price").bind jsToNum = some o.price := by
    rw [getField_price]
    rfl
  simp only [resumeSubmit]
  rw [h1, hp]
  show (if !(isMultipleOfTick o.price t) then ResumeOutcome.invalidTick else _) = _
  rw [hm]
  rfl

theorem resumeSubmit_aligned (o : PendingOrder) (env : ResumeEnv) (t : ℚ)
    (hp : parseFloatQ env.tickSizeStr = some t)
    (hm : isMultipleOfTick o.price t = true) :
    resumeSubmit (toJson o) env =
      .submitted { tokenID := some (.str o.tokenId)
                   price := some (.num o.price)
                   size := some (.num o.size)
                   sideBuy := decide (o.side = "buy")
                   tickSize := env.tickSizeStr
                   negRisk := env.negRisk } := by
  have h1 : (getField (toJson o) "price").bind jsToNum = some o.price := by
    rw [getField_price]
    rfl
  simp only [resumeSubmit]
  rw [h1, hp, getField_price, getField_tokenId, getField_size, getField_side]
  show (if !(isMultipleOfTick o.price t) then ResumeOutcome.invalidTick else _) = _
  rw [hm]
  rfl

theorem resumeAfterDecode_expired (config : PluginConfig) (ctx : ToolContext)
    (o : PendingOrder) (b : Bool) (now : ℚ) (env : ResumeEnv)
    (hne : o.expiresAtMs ≠ 0) (hlt : o.expiresAtMs < now) :
    resumeAfterDecode config ctx (toJson o) b now env = .expired := by
  unfold resumeAfterDecode
  rw [expiredCheck_toJson_true o now hne hlt]
  rfl

theorem resumeAfterDecode_sessionMismatch (config : PluginConfig) (ctx : ToolContext)
    (o : PendingOrder) (b : Bool) (now : ℚ) (env : ResumeEnv) (s s2 : String)
    (hexp : o.expiresAtMs = 0 ∨ now ≤ o.expiresAtMs)
    (h1 : o.sessionKey = some s) (h2 : s ≠ "") (h3 : ctx.sessionKey = some s2)
    (h4 : s2 ≠ "") (h5 : s ≠ s2) :
    resumeAfterDecode config ctx (toJson o) b now env = .sessionMismatch := by
  unfold resumeAfterDecode
  rw [expiredCheck_toJson_false o now hexp,
    sessionMismatch_toJson_true o ctx s s2 h1 h2 h3 h4 h5]
  rfl

theorem resumeAfterDecode_cancelled (config : PluginConfig) (ctx : ToolContext)
    (o : PendingOrder) (now : ℚ) (env : ResumeEnv)
    (hexp : o.expiresAtMs = 0 ∨ now ≤ o.expiresAtMs)
    (hsess : o.sessionKey = ctx.sessionKey) :
    resumeAfterDecode config ctx (toJson o) false now env = .cancelled := by
  unfold resumeAfterDecode
  rw [expiredCheck_toJson_false o now hexp, sessionMismatch_toJson_false o ctx hsess]
  rfl

theorem resumeAfterDecode_disabled (config : PluginConfig) (ctx : ToolContext)
    (o : PendingOrder) (now : ℚ) (env : ResumeEnv)
    (hexp : o.expiresAtMs = 0 ∨ now ≤ o.expiresAtMs)
    (hsess : o.sessionKey = ctx.sessionKey)
    (htrade : config.tradeEnabled = false) :
    resumeAfterDecode config ctx (toJson o) true now env = .tradingDisabled := by
  unfold resumeAfterDecode
  rw [expiredCheck_toJson_false o now hexp, sessionMismatch_toJson_false o ctx hsess, htrade]
  rfl

theorem resumeAfterDecode_gates (config : PluginConfig) (ctx : ToolContext)
    (o : PendingOrder) (now : ℚ) (env : ResumeEnv)
    (hexp : o.expiresAtMs = 0 ∨ now ≤ o.expiresAtMs)
    (hsess : o.sessionKey = ctx.sessionKey)
    (htrade : config.tradeEnabled = true)
    (haction : o.action = "place_order") :
    resumeAfterDecode config ctx (toJson o) true now env =
      if (match config.allowedMarketSlugs with
          | some allow => allow.length != 0
          | none => false) then
        (if !isAllowedMarket config o.marketSlug then .marketNotAllowed
         else resumeSubmit (toJson o) env)
      else resumeSubmit (toJson o) env := by
  unfold resumeAfterDecode
  rw [expiredCheck_toJson_false o now hexp, sessionMismatch_toJson_false o ctx hsess, htrade,
    pendingActionOk_toJson, haction]
  show (if (match config.allowedMarketSlugs with
      | some allow => allow.length != 0
      | none => false) then
      match pendingMarketSlug (toJson o) with
      | .error _ => ResumeOutcome.typeErrorThrown
      | .ok slug =>
        if !isAllowedMarket config slug then .marketNotAllowed
        else resumeSubmit (toJson o) env
    else resumeSubmit (toJson o) env) = _
  rw [pendingMarketSlug_toJson]

/-! ## The outcome resolver, branch by branch -/

theorem resolveOutcomeToken_empty (market : GammaMarket) (oc : Option String)
    (h : (parseJsonStringArray market.clobTokenIds).getD [] = []) :
    resolveOutcomeToken market oc = .error .missingClobTokenIds := by
  simp only [resolveOutcomeToken, h]
  rfl

theorem resolveOutcomeToken_match (market : GammaMarket) (o : String)
    (toks outs : List String) (idx : Nat)
    (htoks : (parseJsonStringArray market.clobTokenIds).getD [] = toks)
    (houts : (parseJsonStringArray market.outcomes).getD [] = outs)
    (hne : o ≠ "") (hno : normalizeOutcomeLabel o ≠ "")
    (hlen : outs.length = toks.length) (hpos : 0 < outs.length)
    (hfind : outs.findIdx? (fun x => normalizeOutcomeLabel x = normalizeOutcomeLabel o)
      = some idx)
    (hnz : toks.getD idx "" ≠ "") :
    resolveOutcomeToken market (some o) = .ok (toks.getD idx "", some (outs.getD idx "")) := by
  have hlen0 : toks.length ≠ 0 := by omega
  have hpos2 : toks.length > 0 := by omega
  have hnz2 : ¬(toks[idx]?.getD "" = "") := by simpa [List.getD] using hnz
  simp only [resolveOutcomeToken, htoks, houts]
  simp [hlen0, hne, hno, jsOptTruthy, hlen, hpos2, hfind, hnz2, List.getD]

theorem resolveOutcomeToken_unmatched (market : GammaMarket) (o : String)
    (toks outs : List String)
    (htoks : (parseJsonStringArray market.clobTokenIds).getD [] = toks)
    (houts : (parseJsonStringArray market.outcomes).getD [] = outs)
    (hne : o ≠ "") (hno : normalizeOutcomeLabel o ≠ "")
    (hlen : outs.length = toks.length) (hpos : 0 < outs.length)
    (hfind : outs.findIdx? (fun x => normalizeOutcomeLabel x = normalizeOutcomeLabel o)
      = none) :
    resolveOutcomeToken market (some o) = .error (.unknownOutcome o) := by
  have hlen0 : toks.length ≠ 0 := by omega
  have hpos2 : toks.length > 0 := by omega
  simp only [resolveOutcomeToken, htoks, houts]
  simp [hlen0, hne, hno, jsOptTruthy, hlen, hpos2, hfind]

theorem resolveOutcomeToken_yes (market : GammaMarket) (o : String)
    (toks outs : List String)
    (htoks : (parseJsonStringArray market.clobTokenIds).getD [] = toks)
    (houts : (parseJsonStringArray market.outcomes).getD [] = outs)
    (hne : o ≠ "") (hyes : normalizeOutcomeLabel o = "yes")
    (hmis : ¬(outs.length = toks.length ∧ 0 < outs.length))
    (hnz : toks.getD 0 "" ≠ "") :
    resolveOutcomeToken market (some o) = .ok (toks.getD 0 "", some "Yes") := by
  have hl2 : ¬(outs.length = toks.length ∧ outs.length > 0) := by
    rintro ⟨hl, hp⟩
    exact hmis ⟨hl, hp⟩
  have htne : toks ≠ [] := by
    rintro rfl
    exact hnz rfl
  have hnz2 : ¬(toks[0]?.getD "" = "") := by simpa [List.getD] using hnz
  simp only [resolveOutcomeToken, htoks, houts]
  simp [hne, hyes, hl2, htne, hnz2, List.getD]

theorem resolveOutcomeToken_no (market : GammaMarket) (o : String)
    (toks outs : List String)
    (htoks : (parseJsonStringArray market.clobTokenIds).getD [] = toks)
    (houts : (parseJsonStringArray market.outcomes).getD [] = outs)
    (hne : o ≠ "") (hno : normalizeOutcomeLabel o = "no")
    (hmis : ¬(outs.length = toks.length ∧ 0 < outs.length))
    (hnz : toks.getD 1 "" ≠ "") :
    resolveOutcomeToken market (some o) = .ok (toks.getD 1 "", some "No") := by
  have hl2 : ¬(outs.length = toks.length ∧ outs.length > 0) := by
    rintro ⟨hl, hp⟩
    exact hmis ⟨hl, hp⟩
  have htne : toks ≠ [] := by
    rintro rfl
    exact hnz rfl
  have hnz2 : ¬(toks[1]?.getD "" = "") := by simpa [List.getD] using hnz
  simp only [resolveOutcomeToken, htoks, houts]
  simp [hne, hno, hl2, htne, hnz2, List.getD]

theorem resolveOutcomeToken_noLabel (market : GammaMarket)
    (toks : List String)
    (htoks : (parseJsonStringArray market.clobTokenIds).getD [] = toks)
    (hne : toks ≠ []) (hnz : toks.getD 0 "" ≠ "") :
    resolveOutcomeToken market none =
      .ok (toks.getD 0 "", ((parseJsonStringArray market.outcomes).getD []).get? 0) := by
  have hlen0 : toks.length ≠ 0 := Nat.pos_iff_ne_zero.mp (List.length_pos.mpr hne)
  have hnz2 : ¬(toks[0]?.getD "" = "") := by simpa [List.getD] using hnz
  simp only [resolveOutcomeToken, htoks]
  simp [hlen0, hne, jsOptTruthy, hnz2, List.getD]

theorem resolveOutcomeToken_provide (market : GammaMarket) (o : String)
    (toks outs : List String)
    (htoks : (parseJsonStringArray market.clobTokenIds).getD [] = toks)
    (houts : (parseJsonStringArray market.outcomes).getD [] = outs)
    (htne : toks ≠ [])
    (hne : o ≠ "") (hno : normalizeOutcomeLabel o ≠ "")
    (hmis : ¬(outs.length = toks.length ∧ 0 < outs.length))
    (hyes : normalizeOutcomeLabel o ≠ "yes") (hnot : normalizeOutcomeLabel o ≠ "no") :
    resolveOutcomeToken market (some o) = .error .provideTokenId := by
  have hl2 : ¬(outs.length = toks.length ∧ outs.length > 0) := by
    rintro ⟨hl, hp⟩
    exact hmis ⟨hl, hp⟩
  simp only [resolveOutcomeToken, htoks, houts]
  simp [hne, hno, hl2, hyes, hnot, jsOptTruthy]
  exact htne

/-! ## The staged order's timestamps and the notional gate -/

theorem placeOrderStage2_fields {config : PluginConfig} {ctx : ToolContext}
    {args : PlaceArgs} {pk : String} {market : Option GammaMarket}
    {ms oc tid : String} {ro : Option String} {now : ℚ}
    {order : PendingOrder} {tok : String}
    (h : placeOrderStage2 config ctx args pk market ms oc tid ro now
      = .needsApproval order tok) :
    order.createdAtMs = now ∧ order.expiresAtMs = now + 5 * 60 * 1000 := by
  simp only [placeOrderStage2] at h
  split at h
  · exact PlaceOutcome.noConfusion h
  · split at h
    · exact PlaceOutcome.noConfusion h
    · split at h
      · exact PlaceOutcome.noConfusion h
      · split at h
        · exact PlaceOutcome.noConfusion h
        · split at h
          · exact PlaceOutcome.noConfusion h
          · split at h
            · exact PlaceOutcome.noConfusion h
            · split at h
              · exact PlaceOutcome.noConfusion h
              · injection h with h1 h2
                subst h1
                exact ⟨rfl, rfl⟩

theorem placeOrderExec_fields {config : PluginConfig} {ctx : ToolContext}
    {args : PlaceArgs} {pk : String} {gamma : GammaMarket} {now : ℚ}
    {order : PendingOrder} {tok : String}
    (h : placeOrderExec config ctx args (some pk) gamma now = .needsApproval order tok) :
    order.createdAtMs = now ∧ order.expiresAtMs = now + 5 * 60 * 1000 := by
  simp only [placeOrderExec] at h
  repeat'
    first
      | exact placeOrderStage2_fields h
      | exact PlaceOutcome.noConfusion h
      | split at h

theorem placeOrderStage2_notional (config : PluginConfig) (ctx : ToolContext)
    (args : PlaceArgs) (pk : String) (market : Option GammaMarket)
    (ms oc tid : String) (ro : Option String) (now : ℚ) (p s : ℚ)
    (hside : jsTrim (args.side.getD "") ≠ "")
    (hbs : jsToLowerCase (jsTrim (args.side.getD "")) = "buy" ∨
      jsToLowerCase (jsTrim (args.side.getD "")) = "sell")
    (hprice : args.price = some p) (hsize : args.size = some s)
    (hp0 : 0 < p) (hp1 : p < 1) (hs0 : 0 < s) :
    (placeOrderStage2 config ctx args pk market ms oc tid ro now = .notionalLimit ↔
      (config.maxNotionalUsd > 0 ∧ p * s > config.maxNotionalUsd)) := by
  simp only [placeOrderStage2, hprice, hsize]
  rw [if_neg hside]
  rw [if_neg (by rcases hbs with h | h <;> simp [h])]
  rw [if_neg (by push_neg; exact ⟨hp0, hp1⟩)]
  rw [if_neg (not_le.mpr hs0)]
  by_cases hc : config.maxNotionalUsd > 0 ∧
      approxNotionalUsd p s > config.maxNotionalUsd
  · rw [if_pos hc]
    unfold approxNotionalUsd at hc
    exact iff_of_true rfl hc
  · rw [if_neg hc]
    unfold approxNotionalUsd at hc
    exact iff_of_false (by simp) hc

/-! ## Tick alignment -/

theorem isMultipleOfTick_nonpos (x t : ℚ) (h : t ≤ 0) : isMultipleOfTick x t = true := by
  simp only [isMultipleOfTick]
  rw [if_pos h]

theorem isMultipleOfTick_pos_iff (x t : ℚ) (h : 0 < t) :
    (isMultipleOfTick x t = true ↔ ∃ n : ℤ, |(n : ℚ) - x / t| < 1 / 10 ^ 9) := by
  simp only [isMultipleOfTick]
  rw [if_neg (not_le.mpr h)]
  simp only [decide_eq_true_eq]
  constructor
  · intro hd
    exact ⟨round (x / t), hd⟩
  · rintro ⟨n, hn⟩
    calc |((round (x / t) : ℤ) : ℚ) - x / t|
        = |x / t - ((round (x / t) : ℤ) : ℚ)| := abs_sub_comm _ _
      _ ≤ |x / t - (n : ℚ)| := round_le (x / t) n
      _ = |(n : ℚ) - x / t| := abs_sub_comm _ _
      _ < 1 / 10 ^ 9 := hn

/-! ## Concrete evaluations

The arithmetic of ℚ is unsealed here so that the kernel can evaluate the
embedded codec on the concrete vectors. -/

attribute [local semireducible] Rat.mul Rat.inv Rat.add Rat.sub

set_option maxRecDepth 4000

theorem cTermZ : TerminatingOrder cOrderZ := by
  refine ⟨?_, ?_, ?_, ?_, ?_⟩ <;> exact decTerminates_den_dvd_100 _ (by decide)

theorem cTermE : TerminatingOrder cOrderE := by
  refine ⟨?_, ?_, ?_, ?_, ?_⟩ <;> exact decTerminates_den_dvd_100 _ (by decide)

theorem cTermS : TerminatingOrder cOrderS := by
  refine ⟨?_, ?_, ?_, ?_, ?_⟩ <;> exact decTerminates_den_dvd_100 _ (by decide)

theorem c9parse001 : parseFloatQ "0.01" = some (1/100) := by decide

theorem c9parse0 : parseFloatQ "0" = some 0 := by decide

theorem c9tickA : isMultipleOfTick (615/1000) (1/100) = false := by decide

theorem c9tickB : isMultipleOfTick (61/100) (1/100) = true := by decide

theorem c3tick : isMultipleOfTick (1/2) (1/100) = true := by decide

theorem c7concrete : resolveOutcomeToken cMarket (some " yES ") = .ok ("T1", some "Yes") := by
  decide

theorem c8concrete :
    placeOrderExec cConfigB cCtx cArgsB (some cSecret) cMarket 0 = .notionalLimit := by
  decide

theorem cBodyLen : (tokenBodyChars cOrderZ).length = 186 := by decide

theorem cBodyDecode :
    decodeB64 ((tokenBodyChars cOrderZ).set 185 'R')
      = utf8Encode (renderJson (toJson cOrderZ)) := by decide

theorem cBodyDiff :
    diffCount ((tokenBodyChars cOrderZ).set 185 'R') (tokenBodyChars cOrderZ) = 1 := by decide

theorem cBodyNoDot : '.' ∉ (tokenBodyChars cOrderZ).set 185 'R' := by decide

theorem cSig :
    tokenSigChars cOrderZ cSecret
      = "bccOKrTR69RblJHtxhmwE-hifTcTN-9jhl9J-V2G524".data := by decide

theorem cTokenData :
    cToken.data = tokenBodyChars cOrderZ ++ '.' :: tokenSigChars cOrderZ cSecret := by
  show (encodeResumeToken cOrderZ cSecret).data = _
  rw [encodeResumeToken_eq, data_mk]

theorem cTamperedDecomp :
    cTampered.data
      = (tokenBodyChars cOrderZ).set 185 'R' ++ '.' :: tokenSigChars cOrderZ cSecret := by
  show (cToken.data).set 185 'R' = _
  rw [cTokenData, List.set_append_left 185 'R' (by rw [cBodyLen]; norm_num)]

theorem c10stage :
    placeOrderExec cConfig cCtx cArgs10 (some cSecret) cMarket 1000
      = .needsApproval cOrder10 (encodeResumeToken cOrder10 cSecret) := by
  rfl

/-! # The claims -/

/-- C1 (amended): for a resume request on an encoded descriptor whose expiry
stamp is nonzero and strictly less than the current time, the outcome is
Expired regardless of the approve flag, and no submission is made.  The
original claim, which omitted the nonzero qualification, is refuted by
c1_zero_expiry_counterexample: a zero expiry stamp is falsy, so the expiry
gate is skipped entirely. -/
theorem c1_expired_resume (config : PluginConfig) (ctx : ToolContext) (o : PendingOrder)
    (sk : String) (approveB : Bool) (now : ℚ) (env : ResumeEnv)
    (hsand : ctx.sandboxed = false) (hterm : TerminatingOrder o)
    (hne : o.expiresAtMs ≠ 0) (hlt : o.expiresAtMs < now) :
    resumeExec config ctx (some (encodeResumeToken o sk)) (some approveB) (some sk) now env
        = .expired ∧
      (resumeExec config ctx (some (encodeResumeToken o sk)) (some approveB) (some sk)
        now env).isSubmission = false := by
  have h := resumeExec_encode config ctx o sk approveB now env hsand hterm
  rw [h, resumeAfterDecode_expired config ctx o approveB now env hne hlt]
  exact ⟨rfl, rfl⟩

/-- C1 counterexample: a decodable token whose expiry stamp is zero — hence
strictly less than the current time 1 — does not resume as Expired: the
falsy stamp skips the expiry gate and the reject path answers Cancelled. -/
theorem c1_zero_expiry_counterexample :
    cOrderZ.expiresAtMs < 1 ∧
    decodeResumeToken cToken cSecret = .ok (toJson cOrderZ) ∧
    resumeExec cConfig cCtx (some cToken) (some false) (some cSecret) 1 cEnv = .cancelled := by
  refine ⟨by norm_num [cOrderZ], ?_, ?_⟩
  · exact decodeResumeToken_encode cOrderZ cSecret cTermZ
  · have h := resumeExec_encode cConfig cCtx cOrderZ cSecret false 1 cEnv rfl cTermZ
    rw [show cToken = encodeResumeToken cOrderZ cSecret from rfl, h,
      resumeAfterDecode_cancelled cConfig cCtx cOrderZ 1 cEnv (Or.inl rfl) rfl]

/-- C1 witness. -/
theorem c1_expired_resume_witness :
    cOrderE.expiresAtMs ≠ 0 ∧ cOrderE.expiresAtMs < 7 ∧
    resumeExec cConfig cCtx (some (encodeResumeToken cOrderE cSecret)) (some true)
      (some cSecret) 7 cEnv = .expired := by
  have hne : cOrderE.expiresAtMs ≠ 0 := by
    show (5 : ℚ) ≠ 0
    norm_num
  have hlt : cOrderE.expiresAtMs < 7 := by
    show (5 : ℚ) < 7
    norm_num
  exact ⟨hne, hlt,
    (c1_expired_resume cConfig cCtx cOrderE cSecret true 7 cEnv rfl cTermE hne hlt).1⟩

/-- C2: resuming a valid, unexpired, session-matching token with approve set
to false ends in the terminal Cancelled outcome, and no submission is made. -/
theorem c2_reject_is_terminal (config : PluginConfig) (ctx : ToolContext) (o : PendingOrder)
    (sk : String) (now : ℚ) (env : ResumeEnv)
    (hsand : ctx.sandboxed = false) (hterm : TerminatingOrder o)
    (hexp : o.expiresAtMs = 0 ∨ now ≤ o.expiresAtMs)
    (hsess : o.sessionKey = ctx.sessionKey) :
    resumeExec config ctx (some (encodeResumeToken o sk)) (some false) (some sk) now env
        = .cancelled ∧
      (resumeExec config ctx (some (encodeResumeToken o sk)) (some false) (some sk)
        now env).isSubmission = false := by
  have h := resumeExec_encode config ctx o sk false now env hsand hterm
  rw [h, resumeAfterDecode_cancelled config ctx o now env hexp hsess]
  exact ⟨rfl, rfl⟩

/-- C2 witness. -/
theorem c2_reject_witness :
    cCtx.sandboxed = false ∧ cOrderZ.sessionKey = cCtx.sessionKey ∧
    resumeExec cConfig cCtx (some (encodeResumeToken cOrderZ cSecret)) (some false)
      (some cSecret) 1 cEnv = .cancelled :=
  ⟨rfl, rfl,
    (c2_reject_is_terminal cConfig cCtx cOrderZ cSecret 1 cEnv rfl cTermZ
      (Or.inl rfl) rfl).1⟩

/-- C3: on an approved resume of a valid, unexpired, session-matching token
the safety checks are re-applied before any submission: disabled trading
answers TradingDisabled, a no-longer-allowlisted market answers
MarketNotAllowed, a price misaligned with the freshly fetched tick size
answers InvalidTick — each without submission — and only when every
re-check passes is the order delegated, carrying the descriptor's token id,
price, size and side together with the fetched tick size and risk flag. -/
theorem c3_resume_rechecks (config : PluginConfig) (ctx : ToolContext) (o : PendingOrder)
    (sk : String) (now : ℚ) (env : ResumeEnv)
    (hsand : ctx.sandboxed = false) (hterm : TerminatingOrder o)
    (hexp : o.expiresAtMs = 0 ∨ now ≤ o.expiresAtMs)
    (hsess : o.sessionKey = ctx.sessionKey)
    (haction : o.action = "place_order") :
    (config.tradeEnabled = false →
      resumeExec config ctx (some (encodeResumeToken o sk)) (some true) (some sk) now env
        = .tradingDisabled) ∧
    (∀ allow, config.tradeEnabled = true → config.allowedMarketSlugs = some allow →
      allow ≠ [] → isAllowedMarket config o.marketSlug = false →
      resumeExec config ctx (some (encodeResumeToken o sk)) (some true) (some sk) now env
        = .marketNotAllowed) ∧
    (∀ t, config.tradeEnabled = true → isAllowedMarket config o.marketSlug = true →
      parseFloatQ env.tickSizeStr = some t → isMultipleOfTick o.price t = false →
      resumeExec config ctx (some (encodeResumeToken o sk)) (some true) (some sk) now env
        = .invalidTick) ∧
    (∀ t, config.tradeEnabled = true → isAllowedMarket config o.marketSlug = true →
      parseFloatQ env.tickSizeStr = some t → isMultipleOfTick o.price t = true →
      resumeExec config ctx (some (encodeResumeToken o sk)) (some true) (some sk) now env
        = .submitted { tokenID := some (.str o.tokenId)
                       price := some (.num o.price)
                       size := some (.num o.size)
                       sideBuy := decide (o.side = "buy")
                       tickSize := env.tickSizeStr
                       negRisk := env.negRisk }) := by
  have hmaster := resumeExec_encode config ctx o sk true now env hsand hterm
  refine ⟨?_, ?_, ?_, ?_⟩
  · intro hoff
    rw [hmaster]
    exact resumeAfterDecode_disabled config ctx o now env hexp hsess hoff
  · intro allow htr hals hne hnal
    rw [hmaster, resumeAfterDecode_gates config ctx o now env hexp hsess htr haction, hals]
    have hb : (allow.length != 0) = true := by
      simpa [List.length_eq_zero] using hne
    simp [hb, hnal]
  · intro t htr hal hp hm
    rw [hmaster, resumeAfterDecode_gates config ctx o now env hexp hsess htr haction]
    have hsub := resumeSubmit_misaligned o env t hp hm
    cases hconf : config.allowedMarketSlugs with
    | none => simpa using hsub
    | some allow =>
      by_cases hlen : allow = []
      · simpa [hlen] using hsub
      · simpa [List.length_eq_zero, hlen, hal] using hsub
  · intro t htr hal hp hm
    rw [hmaster, resumeAfterDecode_gates config ctx o now env hexp hsess htr haction]
    have hsub := resumeSubmit_aligned o env t hp hm
    cases hconf : config.allowedMarketSlugs with
    | none => simpa using hsub
    | some allow =>
      by_cases hlen : allow = []
      · simpa [hlen] using hsub
      · simpa [List.length_eq_zero, hlen, hal] using hsub

/-- C3 witness. -/
theorem c3_resume_witness :
    parseFloatQ cEnv.tickSizeStr = some (1/100) ∧
    isMultipleOfTick cOrderZ.price (1/100) = true ∧
    resumeExec cConfig cCtx (some (encodeResumeToken cOrderZ cSecret)) (some true)
      (some cSecret) 1 cEnv
      = .submitted { tokenID := some (.str cOrderZ.tokenId)
                     price := some (.num cOrderZ.price)
                     size := some (.num cOrderZ.size)
                     sideBuy := decide (cOrderZ.side = "buy")
                     tickSize := cEnv.tickSizeStr
                     negRisk := cEnv.negRisk } :=
  ⟨c9parse001, c3tick,
    (c3_resume_rechecks cConfig cCtx cOrderZ cSecret 1 cEnv rfl cTermZ (Or.inl rfl) rfl
      rfl).2.2.2 (1/100) rfl rfl c9parse001 c3tick⟩

/-- C4: decoding the token produced by encoding a descriptor with a secret
returns the descriptor's rendered payload unchanged, for every descriptor
whose number fields terminate in decimal (true of every JS double) and
every secret. -/
theorem c4_roundtrip (o : PendingOrder) (sk : String) (hterm : TerminatingOrder o) :
    decodeResumeToken (encodeResumeToken o sk) sk = .ok (toJson o) :=
  decodeResumeToken_encode o sk hterm

/-- C4 witness. -/
theorem c4_roundtrip_witness :
    TerminatingOrder cOrderZ ∧
    decodeResumeToken (encodeResumeToken cOrderZ cSecret) cSecret = .ok (toJson cOrderZ) :=
  ⟨cTermZ, c4_roundtrip cOrderZ cSecret cTermZ⟩

/-- C5 (amended): replacing a single character of the signature segment by
any different character makes decode fail with InvalidSignature, or with
MalformedToken when the replacement is the dot.  The original claim — that
every single-character modification of either segment fails — is refuted by
c5_slack_counterexample: a modification confined to the slack bits of the
final payload character decodes successfully to the original payload. -/
theorem c5_tamper_detected (o : PendingOrder) (sk : String) (pre suf : List Char)
    (c c' : Char) (hsig : tokenSigChars o sk = pre ++ c :: suf) (hne : c' ≠ c) :
    decodeResumeToken (String.mk (tokenBodyChars o ++ '.' :: (pre ++ c' :: suf))) sk
        = .error .invalidSignature ∨
      decodeResumeToken (String.mk (tokenBodyChars o ++ '.' :: (pre ++ c' :: suf))) sk
        = .error .malformedToken := by
  have hnd : '.' ∉ pre ++ c :: suf := hsig ▸ dot_not_mem_sig o sk
  have hpre : '.' ∉ pre := fun hm => hnd (List.mem_append.mpr (Or.inl hm))
  have hsuf : '.' ∉ suf := fun hm =>
    hnd (List.mem_append.mpr (Or.inr (List.mem_cons_of_mem _ hm)))
  by_cases hdot : c' = '.'
  · right
    subst hdot
    exact decode_malformed_dotInSig o sk pre suf hpre hsuf
  · left
    have hnd2 : '.' ∉ pre ++ c' :: suf := by
      intro hm
      rcases List.mem_append.mp hm with hm | hm
      · exact hpre hm
      · rcases List.mem_cons.mp hm with he | hm
        · exact hdot he.symm
        · exact hsuf hm
    rw [decodeResumeToken_two _ _ _ (dot_not_mem_body o) hnd2]
    exact decodeParts_sig_tamper o sk pre suf c c' hsig hne

/-- C5 counterexample: cTampered differs from the encoded token in exactly
one character — the final character of the payload segment, whose low four
bits are slack — yet decodes successfully to the original payload. -/
theorem c5_slack_counterexample :
    cTampered.data.length = cToken.data.length ∧
    diffCount cTampered.data cToken.data = 1 ∧
    cTampered ≠ cToken ∧
    decodeResumeToken cTampered cSecret = .ok (toJson cOrderZ) := by
  have hd1 : diffCount cTampered.data cToken.data = 1 := by
    rw [cTamperedDecomp, cTokenData,
      diffCount_append_left _ _ _ (by rw [List.length_set])]
    exact cBodyDiff
  refine ⟨?_, hd1, ?_, ?_⟩
  · rw [cTamperedDecomp, cTokenData]
    simp
  · intro heq
    rw [heq, diffCount_self] at hd1
    exact absurd hd1 (by norm_num)
  · have he : cTampered = String.mk ((tokenBodyChars cOrderZ).set 185 'R'
        ++ '.' :: tokenSigChars cOrderZ cSecret) := by
      rw [← cTamperedDecomp]
    rw [he, decodeResumeToken_two _ _ _ cBodyNoDot (dot_not_mem_sig cOrderZ cSecret)]
    exact decodeParts_ok_of_body cOrderZ cSecret _ cTermZ cBodyDecode

/-- C5 witness. -/
theorem c5_tamper_witness :
    tokenSigChars cOrderZ cSecret
        = [] ++ 'b' :: "ccOKrTR69RblJHtxhmwE-hifTcTN-9jhl9J-V2G524".data ∧
    ('x' : Char) ≠ 'b' ∧
    (decodeResumeToken (String.mk (tokenBodyChars cOrderZ ++ '.' ::
          ([] ++ 'x' :: "ccOKrTR69RblJHtxhmwE-hifTcTN-9jhl9J-V2G524".data))) cSecret
        = .error .invalidSignature ∨
      decodeResumeToken (String.mk (tokenBodyChars cOrderZ ++ '.' ::
          ([] ++ 'x' :: "ccOKrTR69RblJHtxhmwE-hifTcTN-9jhl9J-V2G524".data))) cSecret
        = .error .malformedToken) := by
  have hs : tokenSigChars cOrderZ cSecret
      = [] ++ 'b' :: "ccOKrTR69RblJHtxhmwE-hifTcTN-9jhl9J-V2G524".data := by
    rw [cSig]
    rfl
  exact ⟨hs, by decide,
    c5_tamper_detected cOrderZ cSecret [] _ 'b' 'x' hs (by decide)⟩

/-- C6: when the decoded descriptor carries a session binding and the
resuming context's session differs, the outcome is the terminal
SessionMismatch, and no submission is made. -/
theorem c6_session_guard (config : PluginConfig) (ctx : ToolContext) (o : PendingOrder)
    (sk : String) (b : Bool) (now : ℚ) (env : ResumeEnv) (s s2 : String)
    (hsand : ctx.sandboxed = false) (hterm : TerminatingOrder o)
    (hexp : o.expiresAtMs = 0 ∨ now ≤ o.expiresAtMs)
    (h1 : o.sessionKey = some s) (h2 : s ≠ "") (h3 : ctx.sessionKey = some s2)
    (h4 : s2 ≠ "") (h5 : s ≠ s2) :
    resumeExec config ctx (some (encodeResumeToken o sk)) (some b) (some sk) now env
        = .sessionMismatch ∧
      (resumeExec config ctx (some (encodeResumeToken o sk)) (some b) (some sk)
        now env).isSubmission = false := by
  have h := resumeExec_encode config ctx o sk b now env hsand hterm
  rw [h, resumeAfterDecode_sessionMismatch config ctx o b now env s s2 hexp h1 h2 h3 h4 h5]
  exact ⟨rfl, rfl⟩

/-- C6 witness. -/
theorem c6_session_witness :
    cOrderS.sessionKey = some "alice" ∧ cCtxB.sessionKey = some "bob" ∧
    resumeExec cConfig cCtxB (some (encodeResumeToken cOrderS cSecret)) (some true)
      (some cSecret) 1 cEnv = .sessionMismatch :=
  ⟨rfl, rfl,
    (c6_session_guard cConfig cCtxB cOrderS cSecret true 1 cEnv "alice" "bob" rfl cTermS
      (Or.inl rfl) rfl (by decide) rfl (by decide) (by decide)).1⟩

/-- C7: the outcome resolver is deterministic and follows the tie-break
order of the spec — empty instrument list fails with the missing-instrument
error; a caller label with equal-length non-empty lists resolves by
case-insensitive trimmed match, found or UnknownOutcome; otherwise yes maps
to index 0 and no to index 1 when that instrument exists; no label takes
the first instrument; otherwise an explicit instrument id is demanded — and
on labels Yes/No with instruments T1/T2, the label yES with whitespace
resolves to T1. -/
theorem c7_resolver_deterministic :
    (∀ market oc, (parseJsonStringArray market.clobTokenIds).getD [] = [] →
      resolveOutcomeToken market oc = .error .missingClobTokenIds) ∧
    (∀ market (o : String) toks outs idx,
      (parseJsonStringArray market.clobTokenIds).getD [] = toks →
      (parseJsonStringArray market.outcomes).getD [] = outs →
      o ≠ "" → normalizeOutcomeLabel o ≠ "" →
      outs.length = toks.length → 0 < outs.length →
      outs.findIdx? (fun x => normalizeOutcomeLabel x = normalizeOutcomeLabel o)
        = some idx →
      toks.getD idx "" ≠ "" →
      resolveOutcomeToken market (some o) = .ok (toks.getD idx "", some (outs.getD idx ""))) ∧
    (∀ market (o : String) toks outs,
      (parseJsonStringArray market.clobTokenIds).getD [] = toks →
      (parseJsonStringArray market.outcomes).getD [] = outs →
      o ≠ "" → normalizeOutcomeLabel o ≠ "" →
      outs.length = toks.length → 0 < outs.length →
      outs.findIdx? (fun x => normalizeOutcomeLabel x = normalizeOutcomeLabel o) = none →
      resolveOutcomeToken market (some o) = .error (.unknownOutcome o)) ∧
    (∀ market (o : String) toks outs,
      (parseJsonStringArray market.clobTokenIds).getD [] = toks →
      (parseJsonStringArray market.outcomes).getD [] = outs →
      o ≠ "" → normalizeOutcomeLabel o = "yes" →
      ¬(outs.length = toks.length ∧ 0 < outs.length) →
      toks.getD 0 "" ≠ "" →
      resolveOutcomeToken market (some o) = .ok (toks.getD 0 "", some "Yes")) ∧
    (∀ market (o : String) toks outs,
      (parseJsonStringArray market.clobTokenIds).getD [] = toks →
      (parseJsonStringArray market.outcomes).getD [] = outs →
      o ≠ "" → normalizeOutcomeLabel o = "no" →
      ¬(outs.length = toks.length ∧ 0 < outs.length) →
      toks.getD 1 "" ≠ "" →
      resolveOutcomeToken market (some o) = .ok (toks.getD 1 "", some "No")) ∧
    (∀ market toks,
      (parseJsonStringArray market.clobTokenIds).getD [] = toks →
      toks ≠ [] → toks.getD 0 "" ≠ "" →
      resolveOutcomeToken market none
        = .ok (toks.getD 0 "", ((parseJsonStringArray market.outcomes).getD []).get? 0)) ∧
    (∀ market (o : String) toks outs,
      (parseJsonStringArray market.clobTokenIds).getD [] = toks →
      (parseJsonStringArray market.outcomes).getD [] = outs →
      toks ≠ [] →
      o ≠ "" → normalizeOutcomeLabel o ≠ "" →
      ¬(outs.length = toks.length ∧ 0 < outs.length) →
      normalizeOutcomeLabel o ≠ "yes" → normalizeOutcomeLabel o ≠ "no" →
      resolveOutcomeToken market (some o) = .error .provideTokenId) ∧
    resolveOutcomeToken cMarket (some " yES ") = .ok ("T1", some "Yes") :=
  ⟨resolveOutcomeToken_empty, resolveOutcomeToken_match, resolveOutcomeToken_unmatched,
    resolveOutcomeToken_yes, resolveOutcomeToken_no, resolveOutcomeToken_noLabel,
    resolveOutcomeToken_provide, c7concrete⟩

/-- C7 witness. -/
theorem c7_resolver_witness :
    (parseJsonStringArray cMarketEmpty.clobTokenIds).getD [] = [] ∧
    resolveOutcomeToken cMarketEmpty (some "yes") = .error .missingClobTokenIds :=
  ⟨rfl, c7_resolver_deterministic.1 cMarketEmpty (some "yes") rfl⟩

/-- C8: under valid side, price and size, the staging step fails with the
notional-limit error exactly when the configured limit is positive and
price times size exceeds it — equivalently, the check passes when the limit
is disabled or the notional is within it — the notional-limit outcome emits
no token, and the scenario of price 0.62, size 1000 against limit 100 fails
with that error. -/
theorem c8_notional_limit :
    (∀ config ctx args pk market ms oc tid ro now (p s : ℚ),
      jsTrim (args.side.getD "") ≠ "" →
      (jsToLowerCase (jsTrim (args.side.getD "")) = "buy" ∨
        jsToLowerCase (jsTrim (args.side.getD "")) = "sell") →
      args.price = some p → args.size = some s → 0 < p → p < 1 → 0 < s →
      (placeOrderStage2 config ctx args pk market ms oc tid ro now = .notionalLimit ↔
        (config.maxNotionalUsd > 0 ∧ p * s > config.maxNotionalUsd))) ∧
    PlaceOutcome.notionalLimit.emitsToken = false ∧
    approxNotionalUsd (62/100) 1000 = 620 ∧
    placeOrderExec cConfigB cCtx cArgsB (some cSecret) cMarket 0 = .notionalLimit :=
  ⟨placeOrderStage2_notional, rfl, by norm_num [approxNotionalUsd], c8concrete⟩

/-- C8 witness. -/
theorem c8_notional_witness :
    placeOrderStage2 cConfigB cCtx cArgsB cSecret none "" "" "T1" none 0 = .notionalLimit ↔
      (cConfigB.maxNotionalUsd > 0 ∧ (62/100 : ℚ) * 1000 > cConfigB.maxNotionalUsd) :=
  c8_notional_limit.1 cConfigB cCtx cArgsB cSecret none "" "" "T1" none 0 (62/100) 1000
    (by decide) (Or.inl (by decide)) rfl rfl (by norm_num) (by norm_num) (by norm_num)

/-- C9: the tick-alignment predicate accepts every price when the tick size
is not positive — in particular for the parse of the string 0 — and for a
positive tick size accepts exactly the prices within 1e-9 of an integer
multiple; the string 0.01 parses to 1/100, 0.615 is misaligned with it and
0.61 aligned. -/
theorem c9_tick_alignment :
    (∀ x t : ℚ, t ≤ 0 → isMultipleOfTick x t = true) ∧
    (∀ x t : ℚ, 0 < t →
      (isMultipleOfTick x t = true ↔ ∃ n : ℤ, |(n : ℚ) - x / t| < 1 / 10 ^ 9)) ∧
    parseFloatQ "0.01" = some (1/100) ∧
    isMultipleOfTick (615/1000) (1/100) = false ∧
    isMultipleOfTick (61/100) (1/100) = true ∧
    parseFloatQ "0" = some 0 ∧
    (∀ x : ℚ, isMultipleOfTick x 0 = true) :=
  ⟨isMultipleOfTick_nonpos, isMultipleOfTick_pos_iff, c9parse001, c9tickA, c9tickB,
    c9parse0, fun x => isMultipleOfTick_nonpos x 0 le_rfl⟩

/-- C9 witness. -/
theorem c9_tick_witness :
    ((-1 : ℚ) ≤ 0) ∧ isMultipleOfTick 5 (-1) = true :=
  ⟨by norm_num, c9_tick_alignment.1 5 (-1) (by norm_num)⟩

/-- C10: every descriptor a successful propose emits carries an expiry
exactly five minutes — 300000 milliseconds — after its creation stamp, and
the creation stamp is the staging time. -/
theorem c10_expiry_window (config : PluginConfig) (ctx : ToolContext) (args : PlaceArgs)
    (pk : String) (gamma : GammaMarket) (now : ℚ) (order : PendingOrder) (tok : String)
    (h : placeOrderExec config ctx args (some pk) gamma now = .needsApproval order tok) :
    order.createdAtMs = now ∧ order.expiresAtMs = order.createdAtMs + 300000 := by
  have hf := placeOrderExec_fields h
  refine ⟨hf.1, ?_⟩
  rw [hf.2, hf.1]
  norm_num

/-- C10 witness. -/
theorem c10_expiry_window_witness :
    placeOrderExec cConfig cCtx cArgs10 (some cSecret) cMarket 1000
        = .needsApproval cOrder10 (encodeResumeToken cOrder10 cSecret) ∧
    cOrder10.createdAtMs = 1000 ∧
    cOrder10.expiresAtMs = cOrder10.createdAtMs + 300000 :=
  ⟨c10stage,
    (c10_expiry_window cConfig cCtx cArgs10 cSecret cMarket 1000 cOrder10
      (encodeResumeToken cOrder10 cSecret) c10stage).1,
    (c10_expiry_window cConfig cCtx cArgs10 cSecret cMarket 1000 cOrder10
      (encodeResumeToken cOrder10 cSecret) c10stage).2⟩

end Moltbot
